import Mathlib

/-!
Verification of the jagged-array engine in `awkward/array/jagged.py`
(classes `JaggedArray` and `ByteJaggedArray`).

The embedding below is a shallow model of the Python/NumPy code:

* 1-dimensional NumPy integer arrays become `List Nat` (for `starts`/`stops`,
  whose setters reject negative entries) or `List Int` (for generic numeric
  content and for arrays that may legitimately hold negative values);
* fallible NumPy operations (fancy indexing, slice assignment, `reduceat`)
  become functions into `Except NpErr _`, raising exactly where NumPy raises;
* helper functions that live in `awkward/util.py` (a module whose source is
  not part of this tree) are modelled from the specification's description
  of the four index representations and their conversions.
-/

/-- Error classes raised by the code: Python `ValueError`, `IndexError`,
`TypeError`, `NotImplementedError`, and `NameError` (a raised reference to
an undefined name). -/
inductive NpErr where
  | valueError
  | indexError
  | typeError
  | notImplementedError
  | nameError
deriving DecidableEq, Repr

/-- Python slice `a[i:j]` for non-negative bounds: clips at the length and
yields `[]` when `j ≤ i`, exactly like Python/NumPy basic slicing. -/
def pySlice (a : List α) (i j : Nat) : List α :=
  ((a.drop i).take (j - i))

/-- NumPy fancy read `a[idx]` for an `Int` index array: each index must lie
in `[-len a, len a)`; negative entries wrap by `len a`; otherwise
`IndexError`. -/
def npGather [Inhabited α] (a : List α) (idx : List Int) : Except NpErr (List α) :=
  if idx.all (fun i => -(a.length : Int) ≤ i ∧ i < (a.length : Int)) then
    .ok (idx.map (fun i => a[(if i < 0 then i + (a.length : Int) else i).toNat]!))
  else
    .error .indexError

/-- NumPy fancy read `a[idx]` for a non-negative index array. -/
def npGatherNat [Inhabited α] (a : List α) (idx : List Nat) : Except NpErr (List α) :=
  if idx.all (fun i => i < a.length) then
    .ok (idx.map (fun i => a[i]!))
  else
    .error .indexError

/-- NumPy boolean-mask read `a[mask]`: the mask must have the same length as
`a` (NumPy raises `IndexError` otherwise); keeps the entries where the mask
is true, in order. -/
def npBoolGather (a : List α) (mask : List Bool) : Except NpErr (List α) :=
  if mask.length = a.length then
    .ok (((a.zip mask).filter (fun p => p.2)).map (fun p => p.1))
  else
    .error .indexError

/-- NumPy slice assignment `a[i:j] = vals`: the value array must have exactly
the length of the (clipped) slice, else `ValueError`; returns the updated
buffer. -/
def npSliceAssign (a : List α) (i j : Nat) (vals : List α) : Except NpErr (List α) :=
  if vals.length = (pySlice a i j).length then
    .ok (a.take i ++ vals ++ a.drop (i + vals.length))
  else
    .error .valueError

/-- One element store `a[i] := v` (index already checked). -/
def listSet (a : List α) (i : Nat) (v : α) : List α :=
  a.take i ++ v :: a.drop (i + 1)

/-- NumPy fancy assignment `a[idx] = vals` with `len vals = len idx`
required (no broadcasting case is exercised by the code paths modelled
here); out-of-range indices raise `IndexError`; duplicate indices are
written in order, so the last write wins, matching NumPy's unbuffered
fancy store. -/
def npScatter (a : List α) (idx : List Nat) (vals : List α) : Except NpErr (List α) :=
  if idx.all (fun i => i < a.length) then
    if vals.length = idx.length then
      .ok ((idx.zip vals).foldl (fun acc p => listSet acc p.1 p.2) a)
    else
      .error .valueError
  else
    .error .indexError

/-- NumPy fancy assignment of one scalar, `a[idx] = c`. -/
def npScatterConst (a : List α) (idx : List Nat) (c : α) : Except NpErr (List α) :=
  if idx.all (fun i => i < a.length) then
    .ok (idx.foldl (fun acc i => listSet acc i c) a)
  else
    .error .indexError

/-- Inclusive cumulative sum, `numpy.cumsum`. -/
def npCumsum (a : List Int) : List Int :=
  (List.range a.length).map (fun i => ((a.take (i + 1)).sum))

/-- `numpy.ufunc.reduceat f a ind`: every index must lie in `[0, len a)`
(`IndexError` otherwise, including an index equal to `len a`); entry `k` is
the fold of `a[ind[k] : ind[k+1]]` when `ind[k] < ind[k+1]` (with `len a`
standing in for the missing final bound) and the single element `a[ind[k]]`
when `ind[k] ≥ ind[k+1]`, which is NumPy's documented degenerate case. -/
def npReduceat (f : Int → Int → Int) (a : List Int) (ind : List Nat) :
    Except NpErr (List Int) :=
  if ind.all (fun i => i < a.length) then
    .ok ((List.range ind.length).map (fun k =>
      let i := ind[k]!
      let j := if k + 1 < ind.length then ind[k + 1]! else a.length
      if i < j then
        (pySlice a i j).tail.foldl f ((pySlice a i j).headI)
      else a[i]!))
  else
    .error .indexError

/-- Stable argsort of an integer key array (`numpy.argsort`): returns the
permutation of `range (len keys)` ordered by `(key, position)`
lexicographically, which is the unique stable sorted order.  Implemented as
a structurally recursive insertion sort so that it reduces definitionally. -/
def argInsert (keys : List Int) (i : Nat) : List Nat → List Nat
  | [] => [i]
  | j :: rest =>
      if keys.getD i 0 < keys.getD j 0 ∨ (keys.getD i 0 = keys.getD j 0 ∧ i ≤ j) then
        i :: j :: rest
      else
        j :: argInsert keys i rest

/-- See `argInsert`; sorts positions `0, …, len keys - 1` stably by key. -/
def argsortStable (keys : List Int) : List Nat :=
  (List.range keys.length).foldr (argInsert keys) []

/-! ## The JaggedArray data model

`JaggedArray.__init__` stores `starts`, `stops`, `content`; the setters
reject negative entries, so `starts`/`stops` are modelled as `List Nat`.
The derived fields (`counts`, `offsets`, `parents`) are lazily cached in
the Python class; outside of claim C4 (which models the caches explicitly)
they are pure functions of `starts`/`stops`, which is exactly what the
properties compute on a cache miss. -/
structure J (α : Type) where
  starts : List Nat
  stops : List Nat
  content : List α
deriving DecidableEq, Repr

/-- `JaggedArray.counts`: `stops - starts`.  NumPy subtracts elementwise on
arrays of equal shape (raising on a shape mismatch, a case excluded by
hypothesis wherever `counts` is read); the truncating `Nat` subtraction
agrees with NumPy's signed subtraction whenever `starts ≤ stops` rowwise. -/
def countsJ (v : J α) : List Nat :=
  List.zipWith (fun b a => b - a) v.stops v.starts

/-- `JaggedArray._validstartsstops` for one-dimensional integer arrays: the
shape and dtype checks hold by construction, leaving the length check
`len(starts) > len(stops) → ValueError`. -/
def validstartsstopsE (starts stops : List Nat) : Except NpErr Unit :=
  if starts.length > stops.length then .error .valueError else .ok ()

/-- `JaggedArray._valid`: runs `_validstartsstops` on the view's own arrays
(the content-bounds check in the source is commented out). -/
def validE (v : J α) : Except NpErr Unit :=
  validstartsstopsE v.starts v.stops

/-- `JaggedArray._canuseoffset` (and the identical inline test in
`_tojagged` and `sum`): rows are contiguous and ordered, i.e.
`starts[1:] == stops[:-1]`.  `awkward.util.offsetsaliased` is an aliasing
shortcut that implies this value equality, so it is subsumed. -/
def canuseoffset (v : J α) : Bool :=
  v.starts.tail = v.stops.dropLast

/-- The `JaggedArray.offsets` property on a cache miss: when
`starts[1:] == stops[:-1]` it returns `append(starts, stops[-1])` (reading
`stops[-1]` of an empty array is NumPy `IndexError`); otherwise it raises
`ValueError` ("starts and stops are not compatible with a single offsets
array"). -/
def offsetsJ (v : J α) : Except NpErr (List Nat) :=
  if canuseoffset v then
    match v.stops.getLast? with
    | some l => .ok (v.starts ++ [l])
    | none => .error .indexError
  else
    .error .valueError

/-- Modelled from the spec: `awkward.util.counts2offsets` ("counts →
offsets: prefix sum with leading 0"); `awkward/util.py` is not part of
this source tree.  Entry `i` is the sum of the first `i` counts. -/
def counts2offsets (cs : List Nat) : List Nat :=
  (List.range (cs.length + 1)).map (fun i => (cs.take i).sum)

/-- Modelled from the spec: `awkward.util.offsets2parents` ("offsets →
parents: for each row i, set `parents[offsets[i]:offsets[i+1]] = i`");
`awkward/util.py` is not part of this source tree.  Positions below
`offsets[0]` belong to no row and keep the initial `-1`. -/
def offsets2parents (offs : List Nat) : List Int :=
  match offs with
  | [] => []
  | o0 :: _ =>
      List.replicate o0 (-1) ++
        (List.range (offs.length - 1)).flatMap
          (fun i => List.replicate (offs[i + 1]! - offs[i]!) (i : Int))

/-- Write `parents[s:e] = i` into an existing parents buffer. -/
def writeParents (arr : List Int) (s e : Nat) (i : Int) : List Int :=
  arr.mapIdx (fun j x => if s ≤ j ∧ j < e then i else x)

/-- Modelled from the spec: `awkward.util.startsstops2parents`
("starts/stops → parents (general case): initialize all parents to −1; for
each row i in index order, set `parents[starts[i]:stops[i]] = i` — later
rows overwrite earlier ones on overlap"); `awkward/util.py` is not part of
this source tree.  The buffer covers every referenced position, i.e. has
length `max stops`. -/
def startsstops2parents (starts stops : List Nat) : List Int :=
  ((List.range starts.length).foldl
    (fun arr i => writeParents arr (starts.getD i 0) (stops.getD i 0) (i : Int))
    (List.replicate (stops.foldr max 0) (-1)))

/-- The `JaggedArray.parents` property on a cache miss: try
`offsets2parents(self.offsets)`, falling back to `startsstops2parents` when
the `offsets` property raises `ValueError` (its `IndexError` for an empty
view is not caught and propagates). -/
def parentsJ (v : J α) : Except NpErr (List Int) :=
  match offsetsJ v with
  | .ok offs => .ok (offsets2parents offs)
  | .error .valueError => .ok (startsstops2parents v.starts v.stops)
  | .error e => .error e

/-- `(starts[:-1] < starts[1:]).all()`: adjacent entries strictly
increasing (vacuously true for length ≤ 1, matching `all` of an empty
comparison). -/
def strictlyIncreasing (starts : List Nat) : Bool :=
  (List.zipWith (fun a b => decide (a < b)) starts.dropLast starts.tail).all id

/-- Row `i` of a view: `content[starts[i]:stops[i]]`. -/
def rowJ [Inhabited α] (v : J α) (i : Nat) : List α :=
  pySlice v.content (v.starts.getD i 0) (v.stops.getD i 0)

/-! ## Compaction / relayout: `JaggedArray._tojagged` -/

/-- `JaggedArray._tojagged(starts, stops, copy)`, lines 421–477.  `zero` is
the dtype's zero used by `numpy.zeros` for the destination buffer.  The
object-identity test `starts is self._starts` of the `not copy` shortcut is
modelled by value equality; the next branch compares by `numpy.array_equal`
and returns the same values, so the two branches coincide in the model. -/
def tojagged [Inhabited α] (self : J α) (startsArg stopsArg : Option (List Nat))
    (copy : Bool) (zero : α) : Except NpErr (J α) := do
  let (starts, stops) ←
    match startsArg, stopsArg with
    | none, none => pure (self.starts, self.stops)
    | some starts, none => do
        let _ ← validE self
        if self.starts.length ≠ starts.length then throw .indexError
        let stops := List.zipWith (· + ·) starts (countsJ self)
        if (List.zipWith (fun a b => decide (a > b)) stops.dropLast starts.tail).any id then
          throw .indexError
        pure (starts, stops)
    | none, some stops => do
        let _ ← validE self
        if self.starts.length ≠ stops.length then throw .indexError
        let starts := List.zipWith (fun b c => b - c) stops (countsJ self)
        if (List.zipWith (fun a b => decide (a > b)) stops.dropLast starts.tail).any id then
          throw .indexError
        pure (starts, stops)
    | some starts, some stops => do
        let _ ← validE self
        if List.zipWith (fun b a => b - a) stops starts ≠ countsJ self then
          throw .indexError
        pure (starts, stops)
  let _ ← validstartsstopsE starts stops
  if ¬ copy ∧ starts = self.starts ∧ stops = self.stops then
    pure self
  else if starts = self.starts ∧ stops = self.stops then
    pure ⟨starts, stops, self.content⟩
  else do
    if stops.isEmpty then throw .valueError
    let buf := List.replicate (stops.foldr max 0) zero
    let content ←
      if self.starts.tail = self.stops.dropLast then
        match self.starts.head?, self.stops.getLast? with
        | some s0, some sl => pure (pySlice self.content s0 (sl + 1))
        | _, _ => throw .indexError
      else if strictlyIncreasing self.starts then do
        let ps ← parentsJ self
        npGather self.content (ps.filter (fun p => 0 ≤ p))
      else do
        let ps ← parentsJ self
        let order := argsortStable ps
        npGatherNat self.content
          (((order.zip ps).filter (fun p => 0 ≤ p.2)).map (fun p => p.1))
    let newbuf ←
      if starts.tail = stops.dropLast then
        match starts.head?, stops.getLast? with
        | some s0, some sl => npSliceAssign buf s0 (sl + 1) content
        | _, _ => throw .indexError
      else if strictlyIncreasing starts then do
        let ops ← parentsJ (⟨starts, stops, buf⟩ : J α)
        npScatter buf ((ops.filter (fun p => 0 ≤ p)).map Int.toNat) content
      else do
        let ops ← parentsJ (⟨starts, stops, buf⟩ : J α)
        let order := argsortStable ops
        npScatter buf
          (((order.zip ops).filter (fun p => 0 ≤ p.2)).map (fun p => p.1)) content
    pure ⟨starts, stops, newbuf⟩

/-! ## Broadcasting -/

/-- The parents-driven fill `content[good] = data[parents[good]]` with
`numpy.empty` garbage at unowned positions: position `j` with parent
`p ≥ 0` receives `data[p]`. -/
def parentFill [Inhabited β] (data : List β) (garbage : β) (p : Int) : β :=
  if 0 ≤ p then data[p.toNat]! else garbage

/-- `JaggedArray._broadcast(data)` for one-dimensional `data` (lines
409–419): fill a fresh content buffer with `data[parents[j]]` wherever
position `j` has a parent; positions with parent −1 keep the uninitialized
`numpy.empty` fill, modelled by `garbage`.  Note the source performs no
length check here. -/
def broadcastJ [Inhabited β] (self : J α) (data : List β) (garbage : β) :
    Except NpErr (J β) := do
  let ps ← parentsJ self
  if ¬ (ps.all (fun p => 0 ≤ p → p < (data.length : Int))) then throw .indexError
  pure ⟨self.starts, self.stops, ps.map (parentFill data garbage)⟩

/-- The flat-operand branch of `JaggedArray.__array_ufunc__` (lines
508–522), for the first jagged input `v` (which `_tojagged(copy=False)`
returns unchanged) and one flat one-dimensional NumPy operand `data`:
`starts.shape != data.shape` raises `ValueError`, otherwise the operand is
expanded by parents exactly as in `_broadcast`. -/
def ufuncBroadcastFlat [Inhabited β] (v : J α) (data : List β) (garbage : β) :
    Except NpErr (J β) := do
  let _ ← validE v
  let ps ← parentsJ v
  if data.length ≠ v.starts.length then throw .valueError
  if ¬ (ps.all (fun p => 0 ≤ p → p < (data.length : Int))) then throw .indexError
  pure ⟨v.starts, v.stops, ps.map (parentFill data garbage)⟩

/-! ## Reductions -/

/-- `JaggedArray.sum` (lines 617–632): contiguous fast path via
`numpy.add.reduceat` on `content[starts[0]:stops[-1]]` at the absolute
indices `offsets[:-1]`, patching rows with `offsets[i+1]==offsets[i]` to 0;
general path via an exclusive prefix-sum of content, with empty rows left
at the `numpy.zeros` initial value 0. -/
def sumJ (v : J Int) : Except NpErr (List Int) := do
  let _ ← validE v
  if canuseoffset v then do
    let offs ← offsetsJ v
    match v.starts.head?, v.stops.getLast? with
    | some s0, some sl => do
        let red ← npReduceat (· + ·) (pySlice v.content s0 sl) offs.dropLast
        pure ((List.range red.length).map (fun k =>
          if offs[k + 1]! = offs[k]! then 0 else red[k]!))
    | _, _ => throw .indexError
  else do
    let contentsum := (0 : Int) :: npCumsum v.content
    if (List.zipWith (fun a b => (a, b)) v.starts v.stops).all
        (fun p => p.1 ≠ p.2 → (p.1 < contentsum.length ∧ p.2 < contentsum.length)) then
      pure (List.zipWith (fun a b =>
        if a ≠ b then contentsum[b]! - contentsum[a]! else 0) v.starts v.stops)
    else throw .indexError

/-- `JaggedArray._argminmax(ismin)` (lines 652–674): a per-row additive
shift of `ceil(content.max()) + 1` is scattered at the row starts and
cumulated, the shifted content is argsorted, and each row's answer is read
at its start (min) or stop−1 (max) and made row-local by subtracting the
row start.  Empty rows are emitted as zero-length rows of the result. -/
def argminmaxJ (v : J Int) (ismin : Bool) : Except NpErr (J Int) := do
  let _ ← validE v
  let flatstarts := v.starts
  let flatstops := v.stops
  let mx ← match v.content.max? with
           | some m => pure m
           | none => throw .valueError
  let shift1 ← npScatterConst (List.replicate v.content.length (0 : Int))
                 flatstarts (mx + 1)
  let shift := npCumsum shift1
  let sortedindex := argsortStable (List.zipWith (· + ·) v.content shift)
  let picks : List Int :=
    if ismin then flatstarts.map (fun s => Int.ofNat s)
    else flatstops.map (fun s => Int.ofNat s - 1)
  let gathered ← npGather (sortedindex.map (fun i => Int.ofNat i)) picks
  if gathered.length ≠ flatstarts.length then throw .valueError
  let flatout := List.zipWith (fun g s => g - (s : Int)) gathered flatstarts
  let newstarts := List.range flatstarts.length
  let newstops := (List.range flatstarts.length).map (fun i =>
    if flatstarts.getD i 0 ≠ flatstops.getD i 0 then i + 1 else i)
  pure ⟨newstarts, newstops, flatout⟩

/-! ## Jagged fancy indexing (`JaggedArray.__getitem__`, jagged keys) -/

/-- Row-local negative-index wraparound: `indexes[negatives] += counts[negatives]`
adds the row's own count to each negative index entry. -/
def pyWrap (w c : Int) : Int :=
  if w < 0 then w + c else w

/-- `__getitem__` with an integer-content jagged index (lines 295–315):
compact the index to offset layout, broadcast the source's counts and
starts over it, wrap negative entries by the row count, bounds-check, and
gather from the source content; the result takes the compacted index's
starts/stops.  The two explicit length guards model NumPy's shape errors
for the elementwise operations between mismatched arrays. -/
def getitemIntJagged [Inhabited α] (v : J α) (idx : J Int) : Except NpErr (J α) := do
  let _ ← validE v
  if idx.starts.length ≠ v.starts.length then throw .valueError
  let headoffsets := counts2offsets (countsJ idx)
  let head ← tojagged idx (some headoffsets.dropLast) (some headoffsets.tail) false 0
  let countsB ← broadcastJ head ((countsJ v).map (fun c => Int.ofNat c)) 0
  let counts := countsB.content
  if head.content.length ≠ counts.length then throw .indexError
  let indexes := List.zipWith pyWrap head.content counts
  if ¬ (List.zipWith (fun ix c => decide (0 ≤ ix ∧ ix < c)) indexes counts).all id then
    throw .indexError
  let startsB ← broadcastJ head (v.starts.map (fun s => Int.ofNat s)) 0
  if indexes.length ≠ startsB.content.length then throw .valueError
  let indexes2 := List.zipWith (· + ·) indexes startsB.content
  let newcontent ← npGather v.content indexes2
  pure ⟨head.starts, head.stops, newcontent⟩

/-- `__getitem__` with a boolean-content jagged index (lines 317–334):
compact the source to offset layout if needed, relayout the mask to the
source's layout, count trues per row by viewing the mask as uint8 and
summing, and keep the content positions where the mask is true. -/
def getitemBoolJagged [Inhabited α] (v : J α) (mask : J Bool) (zero : α) :
    Except NpErr (J α) := do
  let _ ← validE v
  let thyself ←
    match offsetsJ v with
    | .ok _ => pure v
    | .error .valueError => do
        let o := counts2offsets (countsJ v)
        tojagged v (some o.dropLast) (some o.tail) false zero
    | .error e => throw e
  let head ← tojagged mask (some thyself.starts) (some thyself.stops) false false
  let inthead : J Int := ⟨head.starts, head.stops,
    head.content.map (fun b => if b then (1 : Int) else 0)⟩
  let intheadsum ← sumJ inthead
  let offsets2 := counts2offsets (intheadsum.map Int.toNat)
  let newcontent ← npBoolGather thyself.content head.content
  pure ⟨offsets2.dropLast, offsets2.tail, newcontent⟩

/-! ## Cross products -/

/-- `JaggedArray.argcross(other)` (lines 571–594): rows of index pairs; row
`i` pairs every position of `self`'s row `i` with every position of
`other`'s row `i`, left factor varying slowest.  The Python `Table` of the
`left`/`right` columns becomes a list of pairs.  The guard models NumPy's
bounds checks for the gathers `starts[parents[indexes]]` etc. -/
def argcrossJ (self other : J α) : Except NpErr (J (Nat × Nat)) := do
  let _ ← validE self
  let _ ← validE other
  if self.starts.length ≠ other.starts.length then throw .valueError
  let cself := countsJ self
  let cother := countsJ other
  let offsets := counts2offsets (List.zipWith (· * ·) cself cother)
  let total := (offsets.getLast?).getD 0
  let parents := offsets2parents offsets
  if ¬ ((List.range total).all (fun i => i < parents.length ∧
        (parents[i]!).toNat < self.starts.length)) then throw .indexError
  let left := (List.range total).map (fun i =>
    let p := (parents[i]!).toNat
    self.starts[p]! + ((i - offsets[p]!) / cother[p]!))
  let right := (List.range total).map (fun i =>
    let p := (parents[i]!).toNat
    other.starts[p]! + (i - offsets[p]!) - cother[p]! * ((i - offsets[p]!) / cother[p]!))
  pure ⟨offsets.dropLast, offsets.tail, left.zip right⟩

/-! ## ByteJaggedArray -/

/-- `ByteJaggedArray._divitemsize`: divide by the element width, with
bit-shift specializations for widths 1, 2, 4, 8. -/
def divitemsize (itemsize : Nat) (x : Nat) : Nat :=
  if itemsize = 1 then x
  else if itemsize = 2 then x >>> 1
  else if itemsize = 4 then x >>> 2
  else if itemsize = 8 then x >>> 3
  else x / itemsize

/-- `ByteJaggedArray._valid` (lines 870–877): the inherited checks, then
`if not (divitemsize(counts) * itemsize != counts).all(): raise
ValueError("not all counts are a multiple of ...")` — written exactly as
the source has it. -/
def byteValidE (v : J α) (itemsize : Nat) : Except NpErr Unit := do
  let _ ← validE v
  if ¬ ((countsJ v).all (fun c => divitemsize itemsize c * itemsize ≠ c)) then
    throw .valueError
  pure ()

/-! ## Length and iteration -/

/-- `JaggedArray.__len__` (lines 228–230): validate, then `len(starts)`. -/
def lenJ (v : J α) : Except NpErr Nat := do
  let _ ← validE v
  pure v.starts.length

/-- `JaggedArray.__iter__` for a one-dimensional view (lines 269–278):
validate, then yield `content[starts[i]:stops[i]]` for each `i` in
`enumerate(starts)`. -/
def iterJ [Inhabited α] (v : J α) : Except NpErr (List (List α)) := do
  let _ ← validE v
  pure ((List.range v.starts.length).map (fun i =>
    pySlice v.content (v.starts.getD i 0) (v.stops.getD i 0)))

/-! ## The stateful cache model (setters)

For claim C4 the lazily cached derived fields and the validity flag are
modelled explicitly.  Setter inputs are `List Int` before the non-negativity
checks, exactly as NumPy index arrays may hold negative entries. -/

/-- The mutable attribute state of a `JaggedArray`: `_starts`, `_stops`,
`_content`, the three caches `_offsets`, `_counts`, `_parents`, and
`_isvalid`. -/
structure JState where
  jstarts : List Int
  jstops : List Int
  jcontent : List Int
  joffsets : Option (List Int)
  jcounts : Option (List Int)
  jparents : Option (List Int)
  isvalid : Bool
deriving DecidableEq, Repr

/-- Modelled from the spec: `awkward.util.counts2offsets` over the signed
input of the `counts` setter (entries already checked non-negative). -/
def counts2offsetsZ (cs : List Int) : List Int :=
  (List.range (cs.length + 1)).map (fun i => (cs.take i).sum)

/-- `starts` setter (lines 126–133): reject negatives, store, null the
three caches, clear the validity flag. -/
def setStarts (s : JState) (value : List Int) : Except NpErr JState :=
  if value.any (fun x => x < 0) then .error .valueError
  else .ok { s with jstarts := value, joffsets := none, jcounts := none,
                    jparents := none, isvalid := false }

/-- `stops` setter (lines 139–146): same shape as the `starts` setter. -/
def setStops (s : JState) (value : List Int) : Except NpErr JState :=
  if value.any (fun x => x < 0) then .error .valueError
  else .ok { s with jstops := value, joffsets := none, jcounts := none,
                    jparents := none, isvalid := false }

/-- `content` setter (lines 152–155): store the content and clear the
validity flag; the source touches none of the three caches. -/
def setContent (s : JState) (value : List Int) : JState :=
  { s with jcontent := value, isvalid := false }

/-- `offsets` setter (lines 169–178): reject negatives, derive
starts/stops, keep `_offsets`, null `_counts`/`_parents`, clear the flag. -/
def setOffsets (s : JState) (value : List Int) : Except NpErr JState :=
  if value.any (fun x => x < 0) then .error .valueError
  else .ok { s with jstarts := value.dropLast, jstops := value.tail,
                    joffsets := some value, jcounts := none, jparents := none,
                    isvalid := false }

/-- `counts` setter (lines 187–198): reject negatives, derive
starts/stops/offsets, keep `_counts`, null `_parents`, clear the flag. -/
def setCounts (s : JState) (value : List Int) : Except NpErr JState :=
  if value.any (fun x => x < 0) then .error .valueError
  else
    let offsets := counts2offsetsZ value
    .ok { s with jstarts := offsets.dropLast, jstops := offsets.tail,
                 joffsets := some offsets, jcounts := some value,
                 jparents := none, isvalid := false }

/-- `parents` setter (lines 210–217): line 213 reads the bare name
`content`, which is not defined in the setter's scope (the instance
attribute is `self._content`), so every assignment raises `NameError`
before any attribute is written.  Note also that the lines after the check
never set `_isvalid = False`. -/
def setParents (_s : JState) (_value : List Int) : Except NpErr JState :=
  .error .nameError

/-! ## Claims -/

/-- C3: the claim states that `ByteJaggedArray._valid` accepts a view iff
every row's byte span is an exact multiple of the element width.  The code
has the test inverted: it raises unless *every* count is a *non*-multiple.
At `starts=[0], stops=[4], itemsize=4` (span 4, an exact multiple) the
code raises `ValueError`, and at `starts=[0], stops=[3]` (span 3, not a
multiple) it validates successfully — each the opposite of the claim. -/
theorem c3_bytevalid_inverted :
    byteValidE (⟨[0], [4], ([] : List Int)⟩ : J Int) 4 = .error .valueError ∧
    byteValidE (⟨[0], [3], ([] : List Int)⟩ : J Int) 4 = .ok () := by
  constructor <;> rfl

/-- C4: the claim states that each of the six setters clears the validity
flag and invalidates the caches it does not supply.  In the code (i) the
`parents` setter reads the undefined name `content` and therefore raises
`NameError` on every assignment, never clearing the flag, and (ii) the
`content` setter clears the flag but leaves all three caches populated
(here `_parents`, whose length must track the content, survives a content
replacement).  The other four setters do behave as claimed, witnessed by
the `starts` setter conjunct. -/
theorem c4_setter_invalidation :
    setParents ⟨[0], [2], [1, 2], none, none, none, true⟩ [0, 0] =
      .error .nameError ∧
    (setContent ⟨[0], [2], [1, 2], some [0, 2], some [2], some [0, 0], true⟩
      [9]).jparents = some [0, 0] ∧
    (setContent ⟨[0], [2], [1, 2], some [0, 2], some [2], some [0, 0], true⟩
      [9]).isvalid = false ∧
    setStarts ⟨[0], [2], [1, 2], some [0, 2], some [2], some [0, 0], true⟩ [1] =
      .ok ⟨[1], [2], [1, 2], none, none, none, false⟩ := by
  refine ⟨rfl, rfl, rfl, rfl⟩

/-- C5: the claim states that every empty row reduces to the operator's
identity on both reduction paths.  On the contiguous fast path `sum`
passes the absolute offsets to `numpy.add.reduceat`, and when the last row
is empty its start equals the length of the sliced content, which is out
of range for `reduceat`: the view `starts=[0,2], stops=[2,2]` (rows
`[[5,7],[]]`) raises `IndexError` instead of producing `[12, 0]`.  The
second conjunct shows the identity patching does hold for an interior
empty row (spec Scenario A). -/
theorem c5_sum_trailing_empty_row :
    sumJ ⟨[0, 2], [2, 2], [5, 7]⟩ = .error .indexError ∧
    sumJ ⟨[0, 3, 3], [3, 3, 5], [10, 20, 30, 40, 50]⟩ = .ok [60, 0, 90] := by
  constructor <;> rfl

/-- C6: the claim states that a row-aligned boolean jagged index keeps
exactly the masked elements of each row.  When the source is not
offset-contiguous it is first compacted by `_tojagged`, whose
strictly-increasing-starts branch gathers `content[parents[parents >= 0]]`
— indexing content by the parent *values* instead of the owned positions.
For rows `[[10],[20]]` stored with a gap (`starts=[0,2], stops=[1,3],
content=[10,99,20]`) and mask `[[True],[True]]` the result is
`[[10],[99]]`: it returns the gap element `99`, which belongs to no row,
instead of `20`.  The second conjunct shows the claimed behaviour does
hold on a contiguous source (spec Scenario B). -/
theorem c6_boolmask_gap_layout :
    getitemBoolJagged (⟨[0, 2], [1, 3], [10, 99, 20]⟩ : J Int)
        (⟨[0, 1], [1, 2], [true, true]⟩ : J Bool) 0 =
      .ok ⟨[0, 1], [1, 2], [10, 99]⟩ ∧
    getitemBoolJagged (⟨[0, 2], [2, 4], [1, 2, 3, 4]⟩ : J Int)
        (⟨[0, 2], [2, 4], [true, false, false, true]⟩ : J Bool) 0 =
      .ok ⟨[0, 1], [1, 2], [1, 4]⟩ := by
  constructor <;> rfl

/-- C7: the claim states that `argmin()` maps every row to its row-local
minimum position and every empty row to an empty row.  The shift array has
`len(content)` entries but is written at every row start; a trailing empty
row's start equals `len(content)`, so `shift[flatstarts] = ...` raises
`IndexError`: rows `[[1],[]]` (`starts=[0,1], stops=[1,1], content=[1]`)
crash instead of giving `[[0],[]]`.  The second conjunct shows the
sort-plus-shift algorithm does produce the claimed row-local indices on
spec Scenario D, rows `[[5,1,3],[],[2]]` → `[[1],[],[0]]`. -/
theorem c7_argmin_trailing_empty_row :
    argminmaxJ ⟨[0, 1], [1, 1], [1]⟩ true = .error .indexError ∧
    argminmaxJ ⟨[0, 3, 3], [3, 3, 4], [5, 1, 3, 2]⟩ true =
      .ok ⟨[0, 1, 2], [1, 1, 3], [1, 0, 0]⟩ := by
  constructor <;> rfl

/-- C10: `_validstartsstops` only rejects `len(starts) > len(stops)`, so a
view with strictly fewer starts than stops validates; its `len` is
`len(starts)` and iteration yields exactly `len(starts)` rows
`content[starts[i]:stops[i]]`, ignoring the surplus stop entries. -/
theorem c10_fewer_starts_than_stops [Inhabited α] (starts stops : List Nat)
    (content : List α) (h : starts.length < stops.length) :
    validstartsstopsE starts stops = .ok () ∧
    lenJ (⟨starts, stops, content⟩ : J α) = .ok starts.length ∧
    (∃ rows, iterJ (⟨starts, stops, content⟩ : J α) = .ok rows ∧
      rows.length = starts.length ∧
      ∀ i, i < starts.length →
        rows[i]? = some (pySlice content (starts.getD i 0) (stops.getD i 0))) ∧
    (∀ s2 t2 : List Nat, t2.length < s2.length →
      validstartsstopsE s2 t2 = .error .valueError) := by
  have hnot : ¬ (starts.length > stops.length) := Nat.lt_asymm h
  refine ⟨ ?_, ?_,
    ⟨(List.range starts.length).map (fun i =>
        pySlice content (starts.getD i 0) (stops.getD i 0)), ?_, ?_, ?_⟩, ?_⟩
  · simp [validstartsstopsE, hnot]
  · simp [lenJ, validE, validstartsstopsE, hnot]
  · simp [iterJ, validE, validstartsstopsE, hnot]
  · simp
  · intro i hi
    simp [hi]
  · intro s2 t2 h2
    simp [validstartsstopsE, h2]

/-- Witness for C10 at `starts=[0]`, `stops=[1,5]`, `content=[7,8,9]`. -/
theorem c10_fewer_starts_than_stops_witness :
    (List.length [0] < List.length [1, 5]) ∧
    (validstartsstopsE [0] [1, 5] = .ok () ∧
     lenJ (⟨[0], [1, 5], [7, 8, 9]⟩ : J Int) = .ok (List.length [0]) ∧
     (∃ rows, iterJ (⟨[0], [1, 5], [7, 8, 9]⟩ : J Int) = .ok rows ∧
       rows.length = List.length [0] ∧
       ∀ i, i < List.length [0] →
         rows[i]? = some (pySlice ([7, 8, 9] : List Int)
           (List.getD [0] i 0) (List.getD [1, 5] i 0))) ∧
     (∀ s2 t2 : List Nat, t2.length < s2.length →
       validstartsstopsE s2 t2 = .error .valueError)) :=
  ⟨by decide, c10_fewer_starts_than_stops [0] [1, 5] [7, 8, 9] (by decide)⟩

/-- C1: relayout to an identity target — `_tojagged` called with the
view's own starts and stops — returns a jagged array reproducing
`view.content` row by row.  Any identity-valued target satisfies the
`array_equal` test against the current layout, so the result carries the
same starts, stops, and content values, and row `i` equals
`content[starts[i]:stops[i]]` for every view, whichever of the four
relayout branches its layout would otherwise select. -/
theorem c1_tojagged_identity [Inhabited α] (v : J α) (zero : α)
    (h : v.starts.length = v.stops.length) :
    ∃ w, tojagged v (some v.starts) (some v.stops) true zero = .ok w ∧
      w.content = v.content ∧
      ∀ i, i < v.starts.length →
        rowJ w i = pySlice v.content (v.starts.getD i 0) (v.stops.getD i 0) := by
  have hnot : ¬ (v.starts.length > v.stops.length) := by omega
  refine ⟨⟨v.starts, v.stops, v.content⟩, ?_, rfl, ?_⟩
  · simp [tojagged, validE, validstartsstopsE, countsJ, hnot]
    rfl
  · intro i hi
    rfl

/-- Witness for C1 at the two-row view `starts=[0,3]`, `stops=[3,5]`,
`content=[1,2,3,4,5]`. -/
theorem c1_tojagged_identity_witness :
    (List.length [0, 3] = List.length [3, 5]) ∧
    ∃ w, tojagged (⟨[0, 3], [3, 5], [1, 2, 3, 4, 5]⟩ : J Int)
        (some [0, 3]) (some [3, 5]) true 0 = .ok w ∧
      w.content = [1, 2, 3, 4, 5] ∧
      ∀ i, i < List.length [0, 3] →
        rowJ w i = pySlice ([1, 2, 3, 4, 5] : List Int)
          (List.getD [0, 3] i 0) (List.getD [3, 5] i 0) :=
  ⟨by decide, c1_tojagged_identity ⟨[0, 3], [3, 5], [1, 2, 3, 4, 5]⟩ 0 (by decide)⟩

/-! ### Support lemmas about the index-representation conversions -/

lemma counts2offsets_length (cs : List Nat) :
    (counts2offsets cs).length = cs.length + 1 := by
  simp [counts2offsets]

lemma counts2offsets_getElem? (cs : List Nat) (i : Nat) (h : i < cs.length + 1) :
    (counts2offsets cs)[i]? = some ((cs.take i).sum) := by
  simp [counts2offsets, List.getElem?_map, List.getElem?_range, h]

lemma counts2offsets_getElem! (cs : List Nat) (i : Nat) (h : i < cs.length + 1) :
    (counts2offsets cs)[i]! = (cs.take i).sum := by
  have hlen : i < (counts2offsets cs).length := by
    rw [counts2offsets_length]; exact h
  rw [getElem!_pos (counts2offsets cs) i hlen]
  have h2 := counts2offsets_getElem? cs i h
  rw [List.getElem?_eq_getElem hlen] at h2
  exact Option.some.inj h2

lemma counts2offsets_ne_nil (cs : List Nat) : counts2offsets cs ≠ [] := by
  intro h
  have := counts2offsets_length cs
  rw [h] at this
  simp at this

lemma counts2offsets_sub (cs : List Nat) :
    List.zipWith (fun b a => b - a) (counts2offsets cs).tail
      (counts2offsets cs).dropLast = cs := by
  have hlen1 : (counts2offsets cs).tail.length = cs.length := by
    simp [counts2offsets_length]
  have hlen2 : (counts2offsets cs).dropLast.length = cs.length := by
    simp [counts2offsets_length]
  apply List.ext_getElem?
  intro i
  by_cases hi : i < cs.length
  · rw [List.getElem?_zipWith]
    rw [List.getElem?_tail]
    rw [List.dropLast_eq_take,
      List.getElem?_take_of_lt (by rw [counts2offsets_length]; omega)]
    rw [counts2offsets_getElem? cs (i + 1) (by omega),
      counts2offsets_getElem? cs i (by omega)]
    rw [List.sum_take_succ cs i hi]
    rw [List.getElem?_eq_getElem hi]
    simp
  · rw [List.getElem?_eq_none (l := cs) (by omega),
      List.getElem?_eq_none (by simp [List.length_zipWith, hlen1, hlen2]; omega)]

lemma counts2offsets_dropLast_tail (cs : List Nat) :
    (counts2offsets cs).dropLast.tail = (counts2offsets cs).tail.dropLast :=
  List.tail_dropLast _

/-- Reference shape of the parents array of a canonical contiguous layout:
row `i` (with base offset `base`) owns a block of `cs[i]` consecutive
positions. -/
def repParents (cs : List Nat) (base : Int) : List Int :=
  match cs with
  | [] => []
  | c :: rest => List.replicate c base ++ repParents rest (base + 1)

lemma repParents_length (cs : List Nat) (b : Int) :
    (repParents cs b).length = cs.sum := by
  induction cs generalizing b with
  | nil => rfl
  | cons c rest ih => simp [repParents, ih]

lemma flatMap_range_succ (n : Nat) (f : Nat → List α) :
    (List.range (n + 1)).flatMap f = f 0 ++ (List.range n).flatMap (fun i => f (i + 1)) := by
  rw [List.range_succ_eq_map]
  simp [List.flatMap_cons]
  rw [List.flatMap_map]

lemma flatMapDiffs (cs : List Nat) (b : Nat) :
    (List.range cs.length).flatMap
      (fun i => List.replicate ((counts2offsets cs)[i + 1]! - (counts2offsets cs)[i]!)
        ((i + b : Nat) : Int))
    = repParents cs (b : Int) := by
  induction cs generalizing b with
  | nil => rfl
  | cons c rest ih =>
    rw [List.length_cons, flatMap_range_succ]
    have h0 : (counts2offsets (c :: rest))[0 + 1]! - (counts2offsets (c :: rest))[0]! = c := by
      rw [counts2offsets_getElem! _ _ (by simp), counts2offsets_getElem! _ _ (by simp)]
      simp
    have hdiff : ∀ i, i < rest.length →
        (counts2offsets (c :: rest))[(i + 1) + 1]! - (counts2offsets (c :: rest))[i + 1]!
          = (counts2offsets rest)[i + 1]! - (counts2offsets rest)[i]! := by
      intro i hi
      rw [counts2offsets_getElem! _ _ (by simp; omega),
        counts2offsets_getElem! _ _ (by simp; omega),
        counts2offsets_getElem! _ _ (by omega),
        counts2offsets_getElem! _ _ (by omega)]
      simp [List.take_cons, List.sum_cons]
      omega
    rw [h0]
    have hbody : ((List.range rest.length).flatMap
        (fun i => List.replicate
          ((counts2offsets (c :: rest))[(i + 1) + 1]! - (counts2offsets (c :: rest))[i + 1]!)
          (((i + 1) + b : Nat) : Int)))
        = (List.range rest.length).flatMap
          (fun i => List.replicate
            ((counts2offsets rest)[i + 1]! - (counts2offsets rest)[i]!)
            ((i + (b + 1) : Nat) : Int)) := by
      apply List.flatMap_congr
      intro i hi
      rw [List.mem_range] at hi
      rw [hdiff i hi]
      congr 1
      omega
    rw [hbody, ih (b + 1)]
    simp [repParents]

lemma offsets2parents_c2o (cs : List Nat) :
    offsets2parents (counts2offsets cs) = repParents cs 0 := by
  have hne := counts2offsets_ne_nil cs
  obtain ⟨o0, t, ht⟩ : ∃ o0 t, counts2offsets cs = o0 :: t := by
    cases h : counts2offsets cs with
    | nil => exact absurd h hne
    | cons a b => exact ⟨a, b, rfl⟩
  have h0 : o0 = 0 := by
    have := counts2offsets_getElem? cs 0 (by omega)
    rw [ht] at this
    simpa using this
  have hlen : (counts2offsets cs).length - 1 = cs.length := by
    rw [counts2offsets_length]
    omega
  rw [ht, offsets2parents]
  have hbody : (List.range ((o0 :: t).length - 1)).flatMap
      (fun i => List.replicate ((o0 :: t)[i + 1]! - (o0 :: t)[i]!) (i : Int))
      = (List.range cs.length).flatMap
        (fun i => List.replicate ((counts2offsets cs)[i + 1]! - (counts2offsets cs)[i]!)
          ((i + 0 : Nat) : Int)) := by
    rw [← ht, hlen]
    apply List.flatMap_congr
    intro i _
    congr 2
  rw [hbody, flatMapDiffs cs 0, h0]
  simp

lemma repParents_getElem? (cs : List Nat) (b : Int) (i k : Nat)
    (hi : i < cs.length) (hk : k < cs.getD i 0) :
    (repParents cs b)[(cs.take i).sum + k]? = some (b + i) := by
  induction cs generalizing b i with
  | nil => simp at hi
  | cons c rest ih =>
    cases i with
    | zero =>
      have hkc : k < c := by simpa using hk
      simp only [List.take_zero, List.sum_nil, Nat.zero_add]
      rw [repParents]
      rw [List.getElem?_append_left (by simpa using hkc)]
      simp [List.getElem?_replicate, hkc]
    | succ i =>
      have hi2 : i < rest.length := by simpa using hi
      have hk2 : k < rest.getD i 0 := by simpa using hk
      rw [repParents]
      rw [List.getElem?_append_right (by simp [List.take_cons, List.sum_cons]; omega)]
      have harith : (List.take (i + 1) (c :: rest)).sum + k - (List.replicate c b).length
          = (rest.take i).sum + k := by
        simp [List.take_cons, List.sum_cons]
        omega
      rw [harith, ih (b + 1) i hi2 hk2]
      have hcast : b + 1 + (i : Int) = b + ((i : Int) + 1) := by ring
      simp [hcast]

lemma repParents_mem (cs : List Nat) (b x : Int) (hx : x ∈ repParents cs b) :
    b ≤ x ∧ x < b + cs.length := by
  induction cs generalizing b with
  | nil => simp [repParents] at hx
  | cons c rest ih =>
    rw [repParents, List.mem_append] at hx
    rcases hx with h | h
    · have := List.eq_of_mem_replicate h
      subst this
      refine ⟨le_refl _, ?_⟩
      have hlen : (0 : Int) < ((c :: rest).length : Int) := by simp
      omega
    · have := ih (b + 1) h
      constructor
      · omega
      · have hlen : ((c :: rest).length : Int) = rest.length + 1 := by
          simp
        omega

lemma sum_take_add_lt (cs : List Nat) (i k : Nat) (hi : i < cs.length)
    (hk : k < cs.getD i 0) : (cs.take i).sum + k < cs.sum := by
  have hsplit : (cs.take (i + 1)).sum + (cs.drop (i + 1)).sum = cs.sum :=
    List.sum_take_add_sum_drop cs (i + 1)
  have hsucc : (cs.take (i + 1)).sum = (cs.take i).sum + cs.getD i 0 := by
    rw [List.sum_take_succ cs i hi]
    congr 1
    exact (List.getD_eq_getElem cs 0 hi).symm
  omega

lemma sum_take_succ_getD (l : List Nat) (i : Nat) (h : i < l.length) :
    (l.take (i + 1)).sum = (l.take i).sum + l.getD i 0 := by
  rw [List.sum_take_succ l i h]
  congr 1
  exact (List.getD_eq_getElem l 0 h).symm

lemma repParents_decomp (cs : List Nat) (j : Nat) (hj : j < cs.sum) :
    ∃ i k, i < cs.length ∧ k < cs.getD i 0 ∧ j = (cs.take i).sum + k := by
  induction cs generalizing j with
  | nil => simp at hj
  | cons c rest ih =>
    by_cases hjc : j < c
    · exact ⟨0, j, by simp, by simpa using hjc, by simp⟩
    · have hj2 : j - c < rest.sum := by
        simp [List.sum_cons] at hj
        omega
      obtain ⟨i, k, hi, hk, hjk⟩ := ih (j - c) hj2
      refine ⟨i + 1, k, by simpa using hi, by simpa using hk, ?_⟩
      simp [List.take_cons, List.sum_cons]
      omega

lemma mem_mapIdx_cases (l : List α) (f : Nat → α → β) (x : β)
    (hx : x ∈ l.mapIdx f) : ∃ i, ∃ h : i < l.length, x = f i (l.get ⟨i, h⟩) := by
  rw [List.mem_iff_get] at hx
  obtain ⟨⟨i, hi⟩, hget⟩ := hx
  have hlen : i < l.length := by simpa using hi
  refine ⟨i, hlen, ?_⟩
  rw [← hget, List.get_mapIdx]

lemma writeParents_mem (arr : List Int) (s e : Nat) (i : Int) (x : Int)
    (hx : x ∈ writeParents arr s e i) : x ∈ arr ∨ x = i := by
  obtain ⟨j, hj, hval⟩ := mem_mapIdx_cases arr _ x hx
  by_cases hw : s ≤ j ∧ j < e
  · right
    simp [hval, hw]
  · left
    rw [hval]
    simp only [hw, if_false]
    exact List.get_mem arr j hj

lemma startsstops2parents_mem (starts stops : List Nat) (x : Int)
    (hx : x ∈ startsstops2parents starts stops) :
    -1 ≤ x ∧ x < (starts.length : Int) := by
  rw [startsstops2parents] at hx
  have main : ∀ (l : List Nat) (arr : List Int),
      (∀ y ∈ arr, -1 ≤ y ∧ y < (starts.length : Int)) →
      (∀ i ∈ l, (i : Int) < (starts.length : Int)) →
      ∀ y ∈ l.foldl
        (fun a i => writeParents a (starts.getD i 0) (stops.getD i 0) (i : Int)) arr,
      -1 ≤ y ∧ y < (starts.length : Int) := by
    intro l
    induction l with
    | nil => intro arr harr _ y hy; exact harr y hy
    | cons hd tl ih =>
      intro arr harr hl y hy
      refine ih _ ?_ (fun i hi => hl i (List.mem_cons_of_mem _ hi)) y hy
      intro z hz
      rcases writeParents_mem _ _ _ _ _ hz with h | h
      · exact harr z h
      · subst h
        constructor
        · have : (0 : Int) ≤ (hd : Int) := Int.natCast_nonneg hd
          omega
        · exact hl hd (List.mem_cons_self _ _)
  refine main _ _ ?_ ?_ x hx
  · intro y hy
    have := List.eq_of_mem_replicate hy
    subst this
    constructor
    · omega
    · have : (0 : Int) ≤ (starts.length : Int) := Int.natCast_nonneg _
      omega
  · intro i hi
    rw [List.mem_range] at hi
    exact_mod_cast hi

lemma offsets2parents_mem (offs : List Nat) (x : Int)
    (hx : x ∈ offsets2parents offs) :
    -1 ≤ x ∧ x < ((offs.length - 1 : Nat) : Int) + 1 ∧
      (0 ≤ x → x < ((offs.length - 1 : Nat) : Int)) := by
  cases offs with
  | nil => simp [offsets2parents] at hx
  | cons o0 t =>
    rw [offsets2parents, List.mem_append] at hx
    rcases hx with h | h
    · have := List.eq_of_mem_replicate h
      subst this
      refine ⟨by omega, by omega, by omega⟩
    · rw [List.mem_flatMap] at h
      obtain ⟨i, hi, hrep⟩ := h
      have := List.eq_of_mem_replicate hrep
      subst this
      rw [List.mem_range] at hi
      have hcast : (i : Int) < ((o0 :: t).length - 1 : Nat) := by exact_mod_cast hi
      refine ⟨by omega, by omega, fun _ => hcast⟩

lemma parentsJ_mem (v : J α) (ps : List Int) (h : parentsJ v = .ok ps)
    (x : Int) (hx : x ∈ ps) :
    -1 ≤ x ∧ (0 ≤ x → x < (v.starts.length : Int)) := by
  rw [parentsJ] at h
  rw [offsetsJ] at h
  by_cases hcu : canuseoffset v
  · rw [if_pos hcu] at h
    cases hlast : v.stops.getLast? with
    | none => rw [hlast] at h; simp at h
    | some l =>
      rw [hlast] at h
      simp only [Except.ok.injEq] at h
      subst h
      have := offsets2parents_mem (v.starts ++ [l]) x hx
      have hlen2 : (v.starts ++ [l]).length - 1 = v.starts.length := by simp
      rw [hlen2] at this
      exact ⟨this.1, this.2.2⟩
  · rw [if_neg hcu] at h
    simp only [Except.ok.injEq] at h
    subst h
    have := startsstops2parents_mem v.starts v.stops x hx
    exact ⟨this.1, fun _ => this.2⟩

/-! ### Canonical offset layouts -/

lemma tail_getLast_of_ne_nil (a : List α) (h : a.tail ≠ []) :
    a.tail.getLast? = a.getLast? := by
  cases a with
  | nil => simp at h
  | cons x t =>
    cases t with
    | nil => simp at h
    | cons y s => simp [List.getLast?_cons_cons]

lemma canonical_starts_length (cs : List Nat) :
    (counts2offsets cs).dropLast.length = cs.length := by
  simp [counts2offsets_length]

lemma canonical_stops_length (cs : List Nat) :
    (counts2offsets cs).tail.length = cs.length := by
  simp [counts2offsets_length]

lemma canonical_countsJ (v : J α) (cs : List Nat)
    (hs : v.starts = (counts2offsets cs).dropLast)
    (hp : v.stops = (counts2offsets cs).tail) :
    countsJ v = cs := by
  rw [countsJ, hs, hp, counts2offsets_sub]

lemma canonical_canuse (v : J α) (cs : List Nat)
    (hs : v.starts = (counts2offsets cs).dropLast)
    (hp : v.stops = (counts2offsets cs).tail) :
    canuseoffset v = true := by
  rw [canuseoffset, hs, hp]
  simp [counts2offsets_dropLast_tail]

lemma canonical_offsetsJ (v : J α) (cs : List Nat)
    (hs : v.starts = (counts2offsets cs).dropLast)
    (hp : v.stops = (counts2offsets cs).tail)
    (hn : cs ≠ []) :
    offsetsJ v = .ok (counts2offsets cs) := by
  have hcu := canonical_canuse v cs hs hp
  have hne : (counts2offsets cs).tail ≠ [] := by
    intro hcon
    have hcl := canonical_stops_length cs
    rw [hcon] at hcl
    exact hn (List.length_eq_zero.mp hcl.symm)
  have hone := counts2offsets_ne_nil cs
  rw [offsetsJ, if_pos hcu, hs, hp]
  rw [tail_getLast_of_ne_nil _ hne, List.getLast?_eq_getLast _ hone]
  show Except.ok ((counts2offsets cs).dropLast ++ [(counts2offsets cs).getLast hone]) =
      Except.ok (counts2offsets cs)
  rw [List.dropLast_concat_getLast hone]

lemma canonical_parentsJ (v : J α) (cs : List Nat)
    (hs : v.starts = (counts2offsets cs).dropLast)
    (hp : v.stops = (counts2offsets cs).tail)
    (hn : cs ≠ []) :
    parentsJ v = .ok (repParents cs 0) := by
  rw [parentsJ, canonical_offsetsJ v cs hs hp hn]
  show Except.ok (offsets2parents (counts2offsets cs)) = Except.ok (repParents cs 0)
  rw [offsets2parents_c2o]

lemma canonical_starts_getD (cs : List Nat) (i : Nat) (hi : i < cs.length) :
    ((counts2offsets cs).dropLast).getD i 0 = (cs.take i).sum := by
  rw [List.getD_eq_getElem?_getD]
  rw [List.dropLast_eq_take, List.getElem?_take_of_lt (by rw [counts2offsets_length]; omega)]
  rw [counts2offsets_getElem? cs i (by omega)]
  rfl

lemma canonical_stops_getD (cs : List Nat) (i : Nat) (hi : i < cs.length) :
    ((counts2offsets cs).tail).getD i 0 = (cs.take (i + 1)).sum := by
  rw [List.getD_eq_getElem?_getD, List.getElem?_tail]
  rw [counts2offsets_getElem? cs (i + 1) (by omega)]
  rfl

/-! ### Python-slice access -/

lemma pySlice_length (a : List α) (i j : Nat) (hj : j ≤ a.length) :
    (pySlice a i j).length = j - i := by
  simp [pySlice]
  omega

lemma pySlice_getElem? (a : List α) (i j k : Nat) (hk : k < j - i) :
    (pySlice a i j)[k]? = a[i + k]? := by
  rw [pySlice, List.getElem?_take_of_lt hk, List.getElem?_drop]

lemma parentsJ_ok (v : J α) (hn : v.stops ≠ []) : ∃ ps, parentsJ v = .ok ps := by
  rw [parentsJ, offsetsJ]
  by_cases hcu : canuseoffset v
  · rw [if_pos hcu]
    cases hlast : v.stops.getLast? with
    | none => exact absurd (List.getLast?_eq_none_iff.mp hlast) hn
    | some l => exact ⟨_, rfl⟩
  · rw [if_neg hcu]
    exact ⟨_, rfl⟩

/-- Two-sided reduction of `Except` binds with a known-successful step. -/
lemma bindOk (a : γ) (f : γ → Except NpErr δ) : (Except.ok a >>= f) = f a := rfl

/-- C8: via the elementwise-dispatch broadcast, a flat one-dimensional
operand whose length equals the number of rows is expanded so that every
content position with parent `p ≥ 0` receives `flatValue[p]` (positions
with parent −1 keep the arbitrary `numpy.empty` fill, which the claim
leaves unconstrained), and a flat operand whose length differs from the
number of rows raises `ValueError`. -/
theorem c8_ufunc_broadcast_flat [Inhabited β] (v : J α) (data : List β) (garbage : β)
    (hlen : v.starts.length = v.stops.length) (hn : 0 < v.starts.length) :
    (data.length = v.starts.length →
      ∃ ps r, parentsJ v = .ok ps ∧ ufuncBroadcastFlat v data garbage = .ok r ∧
        r.starts = v.starts ∧ r.stops = v.stops ∧ r.content.length = ps.length ∧
        ∀ (j : Nat) (p : Int), ps[j]? = some p → 0 ≤ p → r.content[j]? = data[p.toNat]?) ∧
    (data.length ≠ v.starts.length →
      ufuncBroadcastFlat v data garbage = .error .valueError) := by
  have hvalid : validE v = .ok () := by
    rw [validE, validstartsstopsE, if_neg (by omega)]
  have hstne : v.stops ≠ [] := by
    intro hcon
    rw [hcon, List.length_nil] at hlen
    omega
  obtain ⟨ps, hps⟩ := parentsJ_ok v hstne
  have hpslt : ∀ x ∈ ps, 0 ≤ x → x < (v.starts.length : Int) :=
    fun x hx h0 => (parentsJ_mem v ps hps x hx).2 h0
  constructor
  · intro hdata
    have hbound : (ps.all (fun p => decide (0 ≤ p → p < (data.length : Int)))) = true := by
      rw [List.all_eq_true]
      intro x hx
      rw [decide_eq_true_eq]
      intro hx0
      rw [hdata]
      exact hpslt x hx hx0
    refine ⟨ps, ⟨v.starts, v.stops, ps.map (parentFill data garbage)⟩, hps, ?_, rfl, rfl,
      by simp, ?_⟩
    · rw [ufuncBroadcastFlat, hvalid, hps]
      simp only [bindOk]
      simp [hdata, hbound]
      rw [if_neg]
      · rfl
      · rintro ⟨x, hx, h0, hge⟩
        exact absurd (hpslt x hx h0) (not_lt.mpr hge)
    · intro j p hj hp
      have hmem : p ∈ ps := List.getElem?_mem hj
      have hlt : p.toNat < data.length := by
        have := hpslt p hmem hp
        rw [hdata]
        omega
      show (ps.map (parentFill data garbage))[j]? = data[p.toNat]?
      rw [List.getElem?_map, hj]
      simp [parentFill, hp, List.getElem?_eq_getElem hlt, getElem!_pos data p.toNat hlt]
  · intro hdata
    rw [ufuncBroadcastFlat, hvalid, hps]
    simp only [bindOk]
    simp [hdata]
    rfl

/-- Witness for C8 at `starts=[0,2]`, `stops=[2,3]`, `content=[9,9,9]`
(rows of counts 2 and 1) with flat operand `[5,6]`. -/
theorem c8_ufunc_broadcast_flat_witness :
    ((⟨[0, 2], [2, 3], [9, 9, 9]⟩ : J Int).starts.length =
        (⟨[0, 2], [2, 3], [9, 9, 9]⟩ : J Int).stops.length) ∧
    (0 < (⟨[0, 2], [2, 3], [9, 9, 9]⟩ : J Int).starts.length) ∧
    ((([5, 6] : List Int).length = (⟨[0, 2], [2, 3], [9, 9, 9]⟩ : J Int).starts.length →
      ∃ ps r, parentsJ (⟨[0, 2], [2, 3], [9, 9, 9]⟩ : J Int) = .ok ps ∧
        ufuncBroadcastFlat (⟨[0, 2], [2, 3], [9, 9, 9]⟩ : J Int) ([5, 6] : List Int) 0 =
          .ok r ∧
        r.starts = (⟨[0, 2], [2, 3], [9, 9, 9]⟩ : J Int).starts ∧
        r.stops = (⟨[0, 2], [2, 3], [9, 9, 9]⟩ : J Int).stops ∧
        r.content.length = ps.length ∧
        ∀ (j : Nat) (p : Int), ps[j]? = some p → 0 ≤ p →
          r.content[j]? = ([5, 6] : List Int)[p.toNat]?) ∧
    (([5, 6] : List Int).length ≠ (⟨[0, 2], [2, 3], [9, 9, 9]⟩ : J Int).starts.length →
      ufuncBroadcastFlat (⟨[0, 2], [2, 3], [9, 9, 9]⟩ : J Int) ([5, 6] : List Int) 0 =
        .error .valueError)) :=
  ⟨by decide, by decide,
    c8_ufunc_broadcast_flat (⟨[0, 2], [2, 3], [9, 9, 9]⟩ : J Int) [5, 6] 0
      (by decide) (by decide)⟩

lemma zipWith_getD_nat (f : Nat → Nat → Nat) (a b : List Nat) (i : Nat)
    (ha : i < a.length) (hb : i < b.length) :
    (List.zipWith f a b).getD i 0 = f (a.getD i 0) (b.getD i 0) := by
  rw [List.getD_eq_getElem?_getD, List.getElem?_zipWith,
    List.getElem?_eq_getElem ha, List.getElem?_eq_getElem hb]
  simp [List.getD_eq_getElem?_getD, List.getElem?_eq_getElem, ha, hb]

lemma c2o_getLast_getD (cs : List Nat) :
    ((counts2offsets cs).getLast?).getD 0 = cs.sum := by
  rw [List.getLast?_eq_getElem?]
  rw [counts2offsets_length]
  have h : cs.length + 1 - 1 = cs.length := by omega
  rw [h, counts2offsets_getElem? cs cs.length (by omega)]
  simp

lemma rowmajor_pairs (a b : Nat) (f : Nat → Nat → γ) :
    (List.range (a * b)).map (fun k => f (k / b) (k % b))
    = (List.range a).flatMap (fun x => (List.range b).map (fun y => f x y)) := by
  induction a with
  | zero => simp
  | succ a ih =>
    have hmul : (a + 1) * b = a * b + b := by ring
    rw [hmul, List.range_add, List.map_append, List.map_map, ih]
    rw [List.range_succ, List.flatMap_append]
    congr 1
    simp only [List.flatMap_cons, List.flatMap_nil, List.append_nil]
    apply List.map_congr_left
    intro y hy
    rw [List.mem_range] at hy
    have hb : 0 < b := by omega
    have h1 : (a * b + y) / b = a := by
      rw [Nat.add_comm, Nat.add_mul_div_right _ _ hb, Nat.div_eq_of_lt hy]
      omega
    have h2 : (a * b + y) % b = y := by
      rw [Nat.add_comm, Nat.add_mul_mod_self_right, Nat.mod_eq_of_lt hy]
    show f ((a * b + y) / b) ((a * b + y) % b) = f a y
    rw [h1, h2]

lemma getElemBang_eq_getD (l : List Nat) (i : Nat) (h : i < l.length) :
    l[i]! = l.getD i 0 := by
  rw [getElem!_pos l i h, List.getD_eq_getElem?_getD, List.getElem?_eq_getElem h]
  rfl

lemma repParents_getElemBang (cs : List Nat) (i k : Nat)
    (hi : i < cs.length) (hk : k < cs.getD i 0) :
    (repParents cs 0)[(cs.take i).sum + k]! = (i : Int) := by
  have hlt : (cs.take i).sum + k < (repParents cs 0).length := by
    rw [repParents_length]
    exact sum_take_add_lt cs i k hi hk
  rw [getElem!_pos (repParents cs 0) ((cs.take i).sum + k) hlt]
  have h2 := repParents_getElem? cs 0 i k hi hk
  rw [List.getElem?_eq_getElem hlt] at h2
  have := Option.some.inj h2
  rw [this]
  simp


lemma sum_take_le (cs : List Nat) (m : Nat) : (cs.take m).sum ≤ cs.sum := by
  have := List.sum_take_add_sum_drop cs m
  omega

lemma zip_getElem? (l1 : List γ) (l2 : List δ) (i : Nat) (x : γ) (y : δ)
    (h1 : l1[i]? = some x) (h2 : l2[i]? = some y) : (l1.zip l2)[i]? = some (x, y) := by
  rw [List.zip_eq_zipWith, List.getElem?_zipWith, h1, h2]

/-- C9: `argcross(other)` returns a contiguous jagged array whose row `i`
has `counts_self[i] * counts_other[i]` index pairs, enumerating in
row-major order (left factor slowest) every pair of content positions
drawn from `self`'s row `i` and `other`'s row `i`; unequal lengths raise
`ValueError`. -/
theorem c9_argcross (self other : J α)
    (hs1 : self.starts.length = self.stops.length)
    (hs2 : other.starts.length = other.stops.length) :
    (self.starts.length = other.starts.length →
      ∃ r, argcrossJ self other = .ok r ∧
        countsJ r = List.zipWith (· * ·) (countsJ self) (countsJ other) ∧
        r.starts.length = self.starts.length ∧
        ∀ i, i < self.starts.length →
          rowJ r i = (List.range ((countsJ self).getD i 0)).flatMap (fun a =>
            (List.range ((countsJ other).getD i 0)).map (fun b =>
              (self.starts.getD i 0 + a, other.starts.getD i 0 + b)))) ∧
    (self.starts.length ≠ other.starts.length →
      argcrossJ self other = .error .valueError) := by
  have hv1 : validE self = .ok () := by
    rw [validE, validstartsstopsE, if_neg (by omega)]
  have hv2 : validE other = .ok () := by
    rw [validE, validstartsstopsE, if_neg (by omega)]
  constructor
  · intro heq
    have hcslen : (countsJ self).length = self.starts.length := by
      simp [countsJ]
      omega
    have hcolen : (countsJ other).length = self.starts.length := by
      simp [countsJ]
      omega
    have hcblen : (List.zipWith (· * ·) (countsJ self) (countsJ other)).length
        = self.starts.length := by
      simp [hcslen, hcolen]
    set n := self.starts.length with hn
    set cs := countsJ self with hcs
    set co := countsJ other with hco
    set cb := List.zipWith (· * ·) cs co with hcb
    have htot : ((counts2offsets cb).getLast?).getD 0 = cb.sum := c2o_getLast_getD cb
    have hparlen : (repParents cb 0).length = cb.sum := repParents_length cb 0
    have hguard : ((List.range (((counts2offsets cb).getLast?).getD 0)).all (fun i =>
        decide (i < (offsets2parents (counts2offsets cb)).length ∧
          ((offsets2parents (counts2offsets cb))[i]!).toNat < self.starts.length))) = true := by
      rw [List.all_eq_true]
      intro j hj
      rw [List.mem_range, htot] at hj
      rw [decide_eq_true_eq, offsets2parents_c2o, hparlen]
      refine ⟨hj, ?_⟩
      obtain ⟨i, k, hi, hk, hjk⟩ := repParents_decomp cb j hj
      rw [hjk, repParents_getElemBang cb i k hi hk]
      simp only [Int.toNat_natCast]
      omega
    rw [argcrossJ, hv1, hv2]
    simp only [bindOk]
    rw [if_neg (by omega)]
    rw [if_neg (not_not_intro hguard)]
    refine ⟨_, rfl, ?_, ?_, ?_⟩
    · show List.zipWith (fun b a => b - a) (counts2offsets cb).tail
        (counts2offsets cb).dropLast = cb
      exact counts2offsets_sub cb
    · show (counts2offsets cb).dropLast.length = n
      rw [canonical_starts_length]
      omega
    · intro i hi
      have hicb : i < cb.length := by omega
      have hics : i < cs.length := by omega
      have hico : i < co.length := by omega
      have hcbi : cb.getD i 0 = cs.getD i 0 * co.getD i 0 := by
        rw [hcb]
        exact zipWith_getD_nat _ cs co i hics hico
      rw [← rowmajor_pairs]
      rw [rowJ]
      show pySlice _ ((counts2offsets cb).dropLast.getD i 0)
        ((counts2offsets cb).tail.getD i 0) = _
      rw [canonical_starts_getD cb i hicb, canonical_stops_getD cb i hicb]
      have hsucc : (cb.take (i + 1)).sum = (cb.take i).sum + cb.getD i 0 :=
        sum_take_succ_getD cb i hicb
      have htot2 : ((counts2offsets cb).getLast?).getD 0 = cb.sum := htot
      have hlenL : ((List.range (((counts2offsets cb).getLast?).getD 0)).map
          (fun m => self.starts[((offsets2parents (counts2offsets cb))[m]!).toNat]! +
            (m - (counts2offsets cb)[((offsets2parents (counts2offsets cb))[m]!).toNat]!) /
              co[((offsets2parents (counts2offsets cb))[m]!).toNat]!)).length = cb.sum := by
        simp [htot2]
      apply List.ext_getElem?
      intro k
      by_cases hk : k < cb.getD i 0
      · have hm : (cb.take i).sum + k < cb.sum := sum_take_add_lt cb i k hicb hk
        have hmR : (cb.take i).sum + k < ((counts2offsets cb).getLast?).getD 0 := by
          rw [htot2]
          exact hm
        have hpar_m : ((offsets2parents (counts2offsets cb))[(cb.take i).sum + k]!).toNat
            = i := by
          rw [offsets2parents_c2o, repParents_getElemBang cb i k hicb hk]
          simp
        have hoffs_i : (counts2offsets cb)[i]! = (cb.take i).sum :=
          counts2offsets_getElem! cb i (by omega)
        have hco_i : co[i]! = co.getD i 0 := getElemBang_eq_getD co i hico
        have hss_i : self.starts[i]! = self.starts.getD i 0 :=
          getElemBang_eq_getD self.starts i (by omega)
        have hos_i : other.starts[i]! = other.starts.getD i 0 :=
          getElemBang_eq_getD other.starts i (by omega)
        rw [pySlice_getElem? _ _ _ _ (by omega)]
        have hL : ∀ (f : Nat → Nat),
            ((List.range (((counts2offsets cb).getLast?).getD 0)).map f)[(cb.take i).sum + k]?
            = some (f ((cb.take i).sum + k)) := by
          intro f
          rw [List.getElem?_map, List.getElem?_range (by rw [htot2]; exact hm)]
          rfl
        rw [zip_getElem? _ _ _ _ _ (hL _) (hL _)]
        rw [List.getElem?_map, List.getElem?_range (by rw [hcbi] at hk; exact hk)]
        simp only [hpar_m, hoffs_i, hco_i, hss_i, hos_i, Nat.add_sub_cancel_left,
          Option.some.injEq]
        have hdiv : co.getD i 0 * (k / co.getD i 0) ≤ k :=
          Nat.mul_div_le k (co.getD i 0)
        have hmod : k % co.getD i 0 = k - co.getD i 0 * (k / co.getD i 0) := by
          have := Nat.mod_add_div k (co.getD i 0)
          omega
        have hred : Option.map (fun k => (self.starts.getD i 0 + k / co.getD i 0,
            other.starts.getD i 0 + k % co.getD i 0)) (some k)
            = some (self.starts.getD i 0 + k / co.getD i 0,
              other.starts.getD i 0 + k % co.getD i 0) := rfl
        rw [hred, hmod]
        simp only [Option.some.injEq, Prod.mk.injEq]
        exact ⟨trivial, by omega⟩
      · have hrhs : ((List.range (cs.getD i 0 * co.getD i 0)).map
            (fun k => (self.starts.getD i 0 + k / co.getD i 0,
              other.starts.getD i 0 + k % co.getD i 0)))[k]? = none := by
          rw [List.getElem?_eq_none]
          simp only [List.length_map, List.length_range]
          rw [← hcbi]
          omega
        rw [hrhs, List.getElem?_eq_none]
        rw [pySlice_length]
        · omega
        · rw [List.length_zip]
          simp only [List.length_map, List.length_range, htot2]
          rw [Nat.min_self]
          exact sum_take_le cb (i + 1)
  · intro hne
    rw [argcrossJ, hv1, hv2]
    simp only [bindOk]
    rw [if_pos hne]
    rfl

/-- Witness for C9: rows `[[1,2],[9]]` crossed with `[[4],[5,6]]`. -/
theorem c9_argcross_witness :
    ((⟨[0, 2], [2, 3], [1, 2, 9]⟩ : J Int).starts.length =
        (⟨[0, 2], [2, 3], [1, 2, 9]⟩ : J Int).stops.length) ∧
    ((⟨[0, 1], [1, 3], [4, 5, 6]⟩ : J Int).starts.length =
        (⟨[0, 1], [1, 3], [4, 5, 6]⟩ : J Int).stops.length) ∧
    (((⟨[0, 2], [2, 3], [1, 2, 9]⟩ : J Int).starts.length =
        (⟨[0, 1], [1, 3], [4, 5, 6]⟩ : J Int).starts.length →
      ∃ r, argcrossJ (⟨[0, 2], [2, 3], [1, 2, 9]⟩ : J Int)
          (⟨[0, 1], [1, 3], [4, 5, 6]⟩ : J Int) = .ok r ∧
        countsJ r = List.zipWith (· * ·)
          (countsJ (⟨[0, 2], [2, 3], [1, 2, 9]⟩ : J Int))
          (countsJ (⟨[0, 1], [1, 3], [4, 5, 6]⟩ : J Int)) ∧
        r.starts.length = (⟨[0, 2], [2, 3], [1, 2, 9]⟩ : J Int).starts.length ∧
        ∀ i, i < (⟨[0, 2], [2, 3], [1, 2, 9]⟩ : J Int).starts.length →
          rowJ r i = (List.range
              ((countsJ (⟨[0, 2], [2, 3], [1, 2, 9]⟩ : J Int)).getD i 0)).flatMap (fun a =>
            (List.range
                ((countsJ (⟨[0, 1], [1, 3], [4, 5, 6]⟩ : J Int)).getD i 0)).map (fun b =>
              ((⟨[0, 2], [2, 3], [1, 2, 9]⟩ : J Int).starts.getD i 0 + a,
               (⟨[0, 1], [1, 3], [4, 5, 6]⟩ : J Int).starts.getD i 0 + b)))) ∧
    ((⟨[0, 2], [2, 3], [1, 2, 9]⟩ : J Int).starts.length ≠
        (⟨[0, 1], [1, 3], [4, 5, 6]⟩ : J Int).starts.length →
      argcrossJ (⟨[0, 2], [2, 3], [1, 2, 9]⟩ : J Int)
        (⟨[0, 1], [1, 3], [4, 5, 6]⟩ : J Int) = .error .valueError)) :=
  ⟨by decide, by decide,
    c9_argcross (⟨[0, 2], [2, 3], [1, 2, 9]⟩ : J Int)
      (⟨[0, 1], [1, 3], [4, 5, 6]⟩ : J Int) (by decide) (by decide)⟩

lemma bindPure (a : γ) (f : γ → Except NpErr δ) :
    ((pure a : Except NpErr γ) >>= f) = f a := rfl

lemma tojagged_self (idx : J Int)
    (hc1 : idx.starts = (counts2offsets (countsJ idx)).dropLast)
    (hc2 : idx.stops = (counts2offsets (countsJ idx)).tail) :
    tojagged idx (some ((counts2offsets (countsJ idx)).dropLast))
      (some ((counts2offsets (countsJ idx)).tail)) false 0 = .ok idx := by
  have hvalid : validE idx = .ok () := by
    rw [validE, validstartsstopsE, if_neg]
    rw [hc1, hc2, canonical_starts_length, canonical_stops_length]
    omega
  rw [tojagged]
  have hvss : validstartsstopsE (counts2offsets (countsJ idx)).dropLast
      (counts2offsets (countsJ idx)).tail = .ok () := by
    rw [validstartsstopsE, if_neg]
    rw [canonical_starts_length, canonical_stops_length]
    omega
  simp only [hvalid, bindOk, bindPure, counts2offsets_sub]
  rw [if_neg (by simp)]
  simp only [bindOk, bindPure, hvss]
  rw [if_pos ⟨by simp, hc1.symm, hc2.symm⟩]
  rfl

lemma getD_eq_get (l : List γ) (d : γ) (j : Nat) (h : j < l.length) :
    l.getD j d = l.get ⟨j, h⟩ := by
  rw [List.getD_eq_getElem?_getD, List.getElem?_eq_getElem h]
  rfl

lemma zipWith_all_decide (f : Int → Int → Prop) [inst : ∀ a b, Decidable (f a b)]
    (A B : List Int) :
    ((List.zipWith (fun a b => decide (f a b)) A B).all id = true) ↔
    (∀ j, j < A.length → j < B.length → f (A.getD j 0) (B.getD j 0)) := by
  rw [List.all_eq_true]
  constructor
  · intro h j hA hB
    have hj : j < (List.zipWith (fun a b => decide (f a b)) A B).length := by
      simp [List.length_zipWith]
      omega
    have hmem := List.get_mem (List.zipWith (fun a b => decide (f a b)) A B) j hj
    have h2 := h _ hmem
    rw [List.get_zipWith] at h2
    · simp only [id_eq, decide_eq_true_eq] at h2
      rw [getD_eq_get A 0 j hA, getD_eq_get B 0 j hB]
      exact h2
  · intro h x hx
    rw [List.mem_iff_get] at hx
    obtain ⟨⟨j, hj⟩, hxv⟩ := hx
    have hA : j < A.length := by
      simp [List.length_zipWith] at hj
      omega
    have hB : j < B.length := by
      simp [List.length_zipWith] at hj
      omega
    rw [List.get_zipWith] at hxv
    rw [← hxv]
    simp only [id_eq, decide_eq_true_eq]
    have := h j hA hB
    rw [getD_eq_get A 0 j hA, getD_eq_get B 0 j hB] at this
    exact this

lemma broadcastJ_canonical (idx : J Int) (data : List Int)
    (hc1 : idx.starts = (counts2offsets (countsJ idx)).dropLast)
    (hc2 : idx.stops = (counts2offsets (countsJ idx)).tail)
    (hne : countsJ idx ≠ [])
    (hlen : (countsJ idx).length ≤ data.length) :
    broadcastJ idx data 0 = .ok ⟨idx.starts, idx.stops,
      (repParents (countsJ idx) 0).map (parentFill data 0)⟩ := by
  rw [broadcastJ, canonical_parentsJ idx (countsJ idx) hc1 hc2 hne]
  simp only [bindOk]
  rw [if_neg (not_not_intro ?_)]
  · rfl
  · rw [List.all_eq_true]
    intro p hp
    rw [decide_eq_true_eq]
    intro h0
    have := (repParents_mem (countsJ idx) 0 p hp).2
    have hcast : ((countsJ idx).length : Int) ≤ (data.length : Int) := by
      exact_mod_cast hlen
    omega

lemma repParents_map_getD (cs : List Nat) (data : List Int) (i k : Nat)
    (hi : i < cs.length) (hk : k < cs.getD i 0) (hlen : cs.length ≤ data.length) :
    ((repParents cs 0).map (parentFill data 0)).getD ((cs.take i).sum + k) 0
      = data.getD i 0 := by
  rw [List.getD_eq_getElem?_getD, List.getElem?_map, repParents_getElem? cs 0 i k hi hk]
  show parentFill data 0 (0 + (i : Int)) = data.getD i 0
  rw [parentFill]
  have hip : (0 : Int) ≤ 0 + (i : Int) := by omega
  rw [if_pos hip]
  have hilen : i < data.length := by omega
  have htn : ((0 : Int) + (i : Int)).toNat = i := by omega
  rw [htn]
  rw [getElem!_pos data i hilen, getD_eq_get data 0 i hilen]
  rfl

lemma map_getD (f : γ → δ) (l : List γ) (i : Nat) (d : γ) (d2 : δ)
    (h : i < l.length) : (l.map f).getD i d2 = f (l.getD i d) := by
  rw [List.getD_eq_getElem?_getD, List.getElem?_map, List.getElem?_eq_getElem h,
    getD_eq_get l d i h]
  rfl

lemma zipWith_getElem?_some (f : γ → δ → ε) (A : List γ) (B : List δ) (j : Nat)
    (a : γ) (b : δ) (hA : A[j]? = some a) (hB : B[j]? = some b) :
    (List.zipWith f A B)[j]? = some (f a b) := by
  rw [List.getElem?_zipWith, hA, hB]

lemma getElem?_eq_some_getD (l : List γ) (d : γ) (j : Nat) (h : j < l.length) :
    l[j]? = some (l.getD j d) := by
  rw [List.getElem?_eq_getElem h, getD_eq_get l d j h]
  rfl

lemma zipWith_getD_gen (f : γ → δ → ε) (A : List γ) (B : List δ) (j : Nat)
    (dA : γ) (dB : δ) (dE : ε) (hA : j < A.length) (hB : j < B.length) :
    (List.zipWith f A B).getD j dE = f (A.getD j dA) (B.getD j dB) := by
  rw [List.getD_eq_getElem?_getD,
    zipWith_getElem?_some f A B j _ _ (getElem?_eq_some_getD A dA j hA)
      (getElem?_eq_some_getD B dB j hB)]
  rfl

lemma repParents_map_getElem? (cs : List Nat) (data : List Int) (i k : Nat)
    (hi : i < cs.length) (hk : k < cs.getD i 0) (hlen : cs.length ≤ data.length) :
    ((repParents cs 0).map (parentFill data 0))[(cs.take i).sum + k]?
      = some (data.getD i 0) := by
  have h := repParents_map_getD cs data i k hi hk hlen
  have hlt : (cs.take i).sum + k < ((repParents cs 0).map (parentFill data 0)).length := by
    rw [List.length_map, repParents_length]
    exact sum_take_add_lt cs i k hi hk
  rw [getElem?_eq_some_getD _ 0 _ hlt, h]

/-- For a canonical-layout (offset-contiguous) integer jagged index with the
same number of rows as the (well-formed) source view, `view[idx]` produces
rows shaped like the index whose element `k` of row `i` is the source's row
`i` at position `idx[i][k]` — with the row's own count added to negative
entries — and an out-of-range entry after that wraparound raises
`IndexError`. Canonicity of the index layout matters: `_tojagged` returns a
canonical index unchanged, whereas a gapped layout is miscompacted (see the
C2 theorem below). -/
theorem getitemIntJagged_canonical_index [Inhabited α] (v : J α) (idx : J Int)
    (hl1 : v.starts.length = v.stops.length)
    (hl2 : idx.starts.length = v.starts.length)
    (hc1 : idx.starts = (counts2offsets (countsJ idx)).dropLast)
    (hc2 : idx.stops = (counts2offsets (countsJ idx)).tail)
    (hn : 0 < v.starts.length)
    (hcont : idx.content.length = (countsJ idx).sum)
    (hvv : ∀ i, i < v.starts.length →
      v.starts.getD i 0 ≤ v.stops.getD i 0 ∧ v.stops.getD i 0 ≤ v.content.length) :
    ((∀ i, i < v.starts.length → ∀ k, k < (countsJ idx).getD i 0 →
        0 ≤ pyWrap (idx.content.getD (((countsJ idx).take i).sum + k) 0)
            ((countsJ v).getD i 0) ∧
        pyWrap (idx.content.getD (((countsJ idx).take i).sum + k) 0)
            ((countsJ v).getD i 0) < ((countsJ v).getD i 0 : Int)) →
      ∃ r, getitemIntJagged v idx = .ok r ∧
        countsJ r = countsJ idx ∧
        ∀ i, i < v.starts.length → ∀ k, k < (countsJ idx).getD i 0 →
          (rowJ r i)[k]? = (rowJ v i)[(pyWrap
            (idx.content.getD (((countsJ idx).take i).sum + k) 0)
            ((countsJ v).getD i 0)).toNat]?) ∧
    ((¬ (∀ i, i < v.starts.length → ∀ k, k < (countsJ idx).getD i 0 →
        0 ≤ pyWrap (idx.content.getD (((countsJ idx).take i).sum + k) 0)
            ((countsJ v).getD i 0) ∧
        pyWrap (idx.content.getD (((countsJ idx).take i).sum + k) 0)
            ((countsJ v).getD i 0) < ((countsJ v).getD i 0 : Int))) →
      getitemIntJagged v idx = .error .indexError) := by
  have hvalid : validE v = .ok () := by
    rw [validE, validstartsstopsE, if_neg (by omega)]
  have hcsl : (countsJ idx).length = v.starts.length := by
    have := canonical_starts_length (countsJ idx)
    rw [← hc1] at this
    omega
  have hcvl : (countsJ v).length = v.starts.length := by
    simp [countsJ]
    omega
  have hcne : countsJ idx ≠ [] := by
    intro hcon
    rw [hcon] at hcsl
    simp at hcsl
    omega
  have htoj := tojagged_self idx hc1 hc2
  have hbc1 := broadcastJ_canonical idx ((countsJ v).map (fun c => Int.ofNat c)) hc1 hc2 hcne
    (by rw [List.length_map]; omega)
  have hbc2 := broadcastJ_canonical idx (v.starts.map (fun s => Int.ofNat s)) hc1 hc2 hcne
    (by rw [List.length_map]; omega)
  set n := v.starts.length with hnn
  set cs := countsJ idx with hcs
  set CNT := (repParents cs 0).map
    (parentFill ((countsJ v).map (fun c => Int.ofNat c)) 0) with hCNT
  set STS := (repParents cs 0).map
    (parentFill (v.starts.map (fun s => Int.ofNat s)) 0) with hSTS
  have hCNTlen : CNT.length = cs.sum := by
    rw [hCNT, List.length_map, repParents_length]
  have hSTSlen : STS.length = cs.sum := by
    rw [hSTS, List.length_map, repParents_length]
  have hCNT_at : ∀ i k, i < n → k < cs.getD i 0 →
      CNT.getD ((cs.take i).sum + k) 0 = ((countsJ v).getD i 0 : Int) := by
    intro i k hi hk
    rw [hCNT, repParents_map_getD cs _ i k (by omega) hk (by rw [List.length_map]; omega)]
    exact map_getD _ (countsJ v) i 0 0 (by omega)
  have hSTS_at : ∀ i k, i < n → k < cs.getD i 0 →
      STS.getD ((cs.take i).sum + k) 0 = ((v.starts.getD i 0 : Int)) := by
    intro i k hi hk
    rw [hSTS, repParents_map_getD cs _ i k (by omega) hk (by rw [List.length_map]; omega)]
    exact map_getD _ v.starts i 0 0 (by omega)
  set IDXS := List.zipWith pyWrap idx.content CNT with hIDXS
  have hIDXSlen : IDXS.length = cs.sum := by
    rw [hIDXS, List.length_zipWith, hcont, hCNTlen]
    omega
  have hIDXS_at : ∀ i k, i < n → k < cs.getD i 0 →
      IDXS.getD ((cs.take i).sum + k) 0 =
        pyWrap (idx.content.getD ((cs.take i).sum + k) 0) ((countsJ v).getD i 0) := by
    intro i k hi hk
    have hj : (cs.take i).sum + k < cs.sum := sum_take_add_lt cs i k (by omega) hk
    rw [hIDXS, zipWith_getD_gen pyWrap idx.content CNT _ 0 0 0 (by omega)
      (by omega)]
    rw [hCNT_at i k hi hk]
  have hiff : ((List.zipWith (fun ix c => decide (0 ≤ ix ∧ ix < c)) IDXS CNT).all id
      = true) ↔
      (∀ i, i < n → ∀ k, k < cs.getD i 0 →
        0 ≤ pyWrap (idx.content.getD ((cs.take i).sum + k) 0) ((countsJ v).getD i 0) ∧
        pyWrap (idx.content.getD ((cs.take i).sum + k) 0) ((countsJ v).getD i 0)
          < ((countsJ v).getD i 0 : Int)) := by
    rw [zipWith_all_decide (fun ix c => 0 ≤ ix ∧ ix < c) IDXS CNT]
    constructor
    · intro h i hi k hk
      have hj : (cs.take i).sum + k < cs.sum := sum_take_add_lt cs i k (by omega) hk
      have h1 := h ((cs.take i).sum + k) (by omega) (by omega)
      rw [hIDXS_at i k hi hk, hCNT_at i k hi hk] at h1
      exact h1
    · intro h j hjA hjB
      rw [hIDXSlen] at hjA
      obtain ⟨i, k, hi, hk, hjk⟩ := repParents_decomp cs j hjA
      subst hjk
      rw [hIDXS_at i k (by omega) hk, hCNT_at i k (by omega) hk]
      exact h i (by omega) k hk
  set IDXS2 := List.zipWith (· + ·) IDXS STS with hIDXS2
  have hIDXS2len : IDXS2.length = cs.sum := by
    rw [hIDXS2, List.length_zipWith, hIDXSlen, hSTSlen]
    omega
  have hIDXS2_at : ∀ i k, i < n → k < cs.getD i 0 →
      IDXS2.getD ((cs.take i).sum + k) 0 =
        pyWrap (idx.content.getD ((cs.take i).sum + k) 0) ((countsJ v).getD i 0)
          + (v.starts.getD i 0 : Int) := by
    intro i k hi hk
    have hj : (cs.take i).sum + k < cs.sum := sum_take_add_lt cs i k (by omega) hk
    rw [hIDXS2, zipWith_getD_gen _ IDXS STS _ 0 0 0 (by omega) (by omega)]
    rw [hIDXS_at i k hi hk, hSTS_at i k hi hk]
  have hcountsv : ∀ i, i < n →
      (countsJ v).getD i 0 = v.stops.getD i 0 - v.starts.getD i 0 := by
    intro i hi
    rw [countsJ]
    exact zipWith_getD_nat _ v.stops v.starts i (by omega) (by omega)
  have hclen2 : ¬ (idx.content.length ≠ CNT.length) := by
    rw [hcont, hCNTlen]
    omega
  have h2len : ¬ (IDXS.length ≠ STS.length) := by
    rw [hIDXSlen, hSTSlen]
    omega
  constructor
  · intro hInB
    have hgather : npGather v.content IDXS2 =
        .ok (IDXS2.map (fun ix =>
          v.content[(if ix < 0 then ix + (v.content.length : Int) else ix).toNat]!)) := by
      rw [npGather, if_pos]
      rw [List.all_eq_true]
      intro x hx
      rw [List.mem_iff_get] at hx
      obtain ⟨⟨j, hj⟩, hxv⟩ := hx
      have hjlen : j < cs.sum := by
        rw [← hIDXS2len]
        simpa using hj
      obtain ⟨i, k, hi, hk, hjk⟩ := repParents_decomp cs j hjlen
      have hx2 : x = IDXS2.getD j 0 := by
        rw [getD_eq_get IDXS2 0 j (by simpa using hj), ← hxv]
      subst hjk
      rw [hx2, hIDXS2_at i k (by omega) hk]
      obtain ⟨hw0, hw1⟩ := hInB i (by omega) k hk
      have hvvi := hvv i (by omega)
      have hcv := hcountsv i (by omega)
      rw [decide_eq_true_eq]
      constructor
      · have : (0 : Int) ≤ (v.starts.getD i 0 : Int) := by positivity
        omega
      · have hcast : ((countsJ v).getD i 0 : Int)
            = (v.stops.getD i 0 : Int) - (v.starts.getD i 0 : Int) := by
          rw [hcv]
          have : v.starts.getD i 0 ≤ v.stops.getD i 0 := hvvi.1
          omega
        have hslen : (v.stops.getD i 0 : Int) ≤ (v.content.length : Int) := by
          exact_mod_cast hvvi.2
        omega
    refine ⟨⟨idx.starts, idx.stops, IDXS2.map (fun ix =>
      v.content[(if ix < 0 then ix + (v.content.length : Int) else ix).toNat]!)⟩,
      ?_, rfl, ?_⟩
    · rw [getitemIntJagged, hvalid]
      simp only [bindOk, bindPure]
      rw [if_neg (by omega)]
      rw [htoj]
      simp only [bindOk]
      rw [hbc1]
      simp only [bindOk]
      rw [if_neg hclen2]
      rw [if_neg (not_not_intro (hiff.mpr hInB))]
      rw [hbc2]
      simp only [bindOk]
      rw [if_neg h2len]
      rw [hgather]
      simp only [bindOk]
      rfl
    · intro i hi k hk
      have hj : (cs.take i).sum + k < cs.sum := sum_take_add_lt cs i k (by omega) hk
      obtain ⟨hw0, hw1⟩ := hInB i hi k hk
      have hvvi := hvv i hi
      have hcv := hcountsv i hi
      -- left-hand side
      show (pySlice (IDXS2.map _) (idx.starts.getD i 0) (idx.stops.getD i 0))[k]? = _
      rw [hc1, hc2]
      rw [canonical_starts_getD cs i (by omega), canonical_stops_getD cs i (by omega)]
      rw [pySlice_getElem? _ _ _ _ ?hkb]
      case hkb =>
        rw [sum_take_succ_getD cs i (by omega)]
        omega
      rw [List.getElem?_map]
      rw [getElem?_eq_some_getD IDXS2 0 _ (by omega)]
      show some _ = _
      rw [hIDXS2_at i k hi hk]
      -- right-hand side
      have hwnat : (pyWrap (idx.content.getD ((cs.take i).sum + k) 0)
          ((countsJ v).getD i 0)).toNat < v.stops.getD i 0 - v.starts.getD i 0 := by
        rw [← hcv]
        omega
      rw [rowJ, pySlice_getElem? _ _ _ _ hwnat]
      have hin : v.starts.getD i 0 + (pyWrap (idx.content.getD ((cs.take i).sum + k) 0)
          ((countsJ v).getD i 0)).toNat < v.content.length := by
        have h1 := hvvi.1
        have h2 := hvvi.2
        omega
      rw [List.getElem?_eq_getElem hin]
      have hval : (if pyWrap (idx.content.getD ((cs.take i).sum + k) 0)
            ((countsJ v).getD i 0) + (v.starts.getD i 0 : Int) < 0 then
          pyWrap (idx.content.getD ((cs.take i).sum + k) 0) ((countsJ v).getD i 0)
            + (v.starts.getD i 0 : Int) + (v.content.length : Int)
        else pyWrap (idx.content.getD ((cs.take i).sum + k) 0) ((countsJ v).getD i 0)
            + (v.starts.getD i 0 : Int)).toNat
          = v.starts.getD i 0 + (pyWrap (idx.content.getD ((cs.take i).sum + k) 0)
            ((countsJ v).getD i 0)).toNat := by
        rw [if_neg (by omega)]
        omega
      beta_reduce
      rw [hval]
      rw [getElem!_pos v.content _ hin]
  · intro hnInB
    rw [getitemIntJagged, hvalid]
    simp only [bindOk, bindPure]
    rw [if_neg (by omega)]
    rw [htoj]
    simp only [bindOk]
    rw [hbc1]
    simp only [bindOk]
    rw [if_neg hclen2]
    rw [if_pos (fun h => hnInB (hiff.mp h))]
    rfl

/-- Instance check for the canonical-index theorem at spec Scenario C: rows
`[[1,2,3],[4,5]]` indexed by the canonical integer jagged index
`[[-1,0],[1]]`. -/
theorem getitemIntJagged_canonical_index_check :
    ((⟨[0, 3], [3, 5], [1, 2, 3, 4, 5]⟩ : J Int).starts.length = (⟨[0, 3], [3, 5], [1, 2, 3, 4, 5]⟩ : J Int).stops.length) ∧
    ((⟨[0, 2], [2, 3], [-1, 0, 1]⟩ : J Int).starts.length = (⟨[0, 3], [3, 5], [1, 2, 3, 4, 5]⟩ : J Int).starts.length) ∧
    ((⟨[0, 2], [2, 3], [-1, 0, 1]⟩ : J Int).starts = (counts2offsets (countsJ (⟨[0, 2], [2, 3], [-1, 0, 1]⟩ : J Int))).dropLast) ∧
    ((⟨[0, 2], [2, 3], [-1, 0, 1]⟩ : J Int).stops = (counts2offsets (countsJ (⟨[0, 2], [2, 3], [-1, 0, 1]⟩ : J Int))).tail) ∧
    (0 < (⟨[0, 3], [3, 5], [1, 2, 3, 4, 5]⟩ : J Int).starts.length) ∧
    ((⟨[0, 2], [2, 3], [-1, 0, 1]⟩ : J Int).content.length = (countsJ (⟨[0, 2], [2, 3], [-1, 0, 1]⟩ : J Int)).sum) ∧
    (∀ i, i < (⟨[0, 3], [3, 5], [1, 2, 3, 4, 5]⟩ : J Int).starts.length →
      (⟨[0, 3], [3, 5], [1, 2, 3, 4, 5]⟩ : J Int).starts.getD i 0 ≤ (⟨[0, 3], [3, 5], [1, 2, 3, 4, 5]⟩ : J Int).stops.getD i 0 ∧
      (⟨[0, 3], [3, 5], [1, 2, 3, 4, 5]⟩ : J Int).stops.getD i 0 ≤ (⟨[0, 3], [3, 5], [1, 2, 3, 4, 5]⟩ : J Int).content.length) ∧
    (
    ((∀ i, i < (⟨[0, 3], [3, 5], [1, 2, 3, 4, 5]⟩ : J Int).starts.length → ∀ k, k < (countsJ (⟨[0, 2], [2, 3], [-1, 0, 1]⟩ : J Int)).getD i 0 →
        0 ≤ pyWrap ((⟨[0, 2], [2, 3], [-1, 0, 1]⟩ : J Int).content.getD (((countsJ (⟨[0, 2], [2, 3], [-1, 0, 1]⟩ : J Int)).take i).sum + k) 0)
            ((countsJ (⟨[0, 3], [3, 5], [1, 2, 3, 4, 5]⟩ : J Int)).getD i 0) ∧
        pyWrap ((⟨[0, 2], [2, 3], [-1, 0, 1]⟩ : J Int).content.getD (((countsJ (⟨[0, 2], [2, 3], [-1, 0, 1]⟩ : J Int)).take i).sum + k) 0)
            ((countsJ (⟨[0, 3], [3, 5], [1, 2, 3, 4, 5]⟩ : J Int)).getD i 0) < ((countsJ (⟨[0, 3], [3, 5], [1, 2, 3, 4, 5]⟩ : J Int)).getD i 0 : Int)) →
      ∃ r, getitemIntJagged (⟨[0, 3], [3, 5], [1, 2, 3, 4, 5]⟩ : J Int) (⟨[0, 2], [2, 3], [-1, 0, 1]⟩ : J Int) = .ok r ∧
        countsJ r = countsJ (⟨[0, 2], [2, 3], [-1, 0, 1]⟩ : J Int) ∧
        ∀ i, i < (⟨[0, 3], [3, 5], [1, 2, 3, 4, 5]⟩ : J Int).starts.length → ∀ k, k < (countsJ (⟨[0, 2], [2, 3], [-1, 0, 1]⟩ : J Int)).getD i 0 →
          (rowJ r i)[k]? = (rowJ (⟨[0, 3], [3, 5], [1, 2, 3, 4, 5]⟩ : J Int) i)[(pyWrap
            ((⟨[0, 2], [2, 3], [-1, 0, 1]⟩ : J Int).content.getD (((countsJ (⟨[0, 2], [2, 3], [-1, 0, 1]⟩ : J Int)).take i).sum + k) 0)
            ((countsJ (⟨[0, 3], [3, 5], [1, 2, 3, 4, 5]⟩ : J Int)).getD i 0)).toNat]?) ∧
    ((¬ (∀ i, i < (⟨[0, 3], [3, 5], [1, 2, 3, 4, 5]⟩ : J Int).starts.length → ∀ k, k < (countsJ (⟨[0, 2], [2, 3], [-1, 0, 1]⟩ : J Int)).getD i 0 →
        0 ≤ pyWrap ((⟨[0, 2], [2, 3], [-1, 0, 1]⟩ : J Int).content.getD (((countsJ (⟨[0, 2], [2, 3], [-1, 0, 1]⟩ : J Int)).take i).sum + k) 0)
            ((countsJ (⟨[0, 3], [3, 5], [1, 2, 3, 4, 5]⟩ : J Int)).getD i 0) ∧
        pyWrap ((⟨[0, 2], [2, 3], [-1, 0, 1]⟩ : J Int).content.getD (((countsJ (⟨[0, 2], [2, 3], [-1, 0, 1]⟩ : J Int)).take i).sum + k) 0)
            ((countsJ (⟨[0, 3], [3, 5], [1, 2, 3, 4, 5]⟩ : J Int)).getD i 0) < ((countsJ (⟨[0, 3], [3, 5], [1, 2, 3, 4, 5]⟩ : J Int)).getD i 0 : Int))) →
      getitemIntJagged (⟨[0, 3], [3, 5], [1, 2, 3, 4, 5]⟩ : J Int) (⟨[0, 2], [2, 3], [-1, 0, 1]⟩ : J Int) = .error .indexError))
    :=
  ⟨by decide, by decide, by decide, by decide, by decide, by decide, by decide,
    getitemIntJagged_canonical_index (⟨[0, 3], [3, 5], [1, 2, 3, 4, 5]⟩ : J Int) (⟨[0, 2], [2, 3], [-1, 0, 1]⟩ : J Int)
      (by decide) (by decide) (by decide) (by decide) (by decide) (by decide) (by decide)⟩

/-- C2: the claimed semantics of `view[integer jagged index]` — rows shaped
like the index, element `k` of row `i` being the source's row `i` at
position `idx[i][k]` — fails in the code for a non-canonical (gapped) index
layout. The index `[[0],[0]]` stored with `starts=[0,2]`, `stops=[1,3]`,
`content=[0,1,0]` (gap value 1 at position 1) over the source rows
`[[1,2,3],[4,5]]` should select `[[1],[4]]`, but `__getitem__`'s index
compaction via `_tojagged` gathers `content[parents[parents >= 0]]` —
content indexed by parent values rather than owned positions — so the gap
value 1 replaces row 1's index 0 and the result is `[[1],[5]]` (first
conjunct; the third conjunct shows source row 1 is `[4,5]`, whose claimed
element at position 0 is 4, not 5). With gap value 9 the miscompaction even
raises `IndexError` although every actual index entry is in range (second
conjunct). On a canonical offset-contiguous index the behaviour is as
claimed (fourth conjunct, spec Scenario C: `[[-1,0],[1]]` selects
`[[3,1],[5]]`; the general statement is `getitemIntJagged_canonical_index`
above). -/
theorem c2_getitem_int_jagged_gapped :
    getitemIntJagged (⟨[0, 3], [3, 5], [1, 2, 3, 4, 5]⟩ : J Int)
        (⟨[0, 2], [1, 3], [0, 1, 0]⟩ : J Int)
      = .ok ⟨[0, 1], [1, 2], [1, 5]⟩ ∧
    getitemIntJagged (⟨[0, 3], [3, 5], [1, 2, 3, 4, 5]⟩ : J Int)
        (⟨[0, 2], [1, 3], [0, 9, 0]⟩ : J Int)
      = .error .indexError ∧
    rowJ (⟨[0, 3], [3, 5], [1, 2, 3, 4, 5]⟩ : J Int) 1 = [4, 5] ∧
    getitemIntJagged (⟨[0, 3], [3, 5], [1, 2, 3, 4, 5]⟩ : J Int)
        (⟨[0, 2], [2, 3], [-1, 0, 1]⟩ : J Int)
      = .ok ⟨[0, 2], [2, 3], [3, 1, 5]⟩ :=
  ⟨rfl, rfl, rfl, rfl⟩
